import Mathlib

/-!
Verification development for the poker_eden Texas Hold'em engine
(crate poker_eden_core: card.rs, state.rs, logic.rs).

The Rust code is shallowly embedded as executable Lean definitions:

* chip amounts (Rust u32) are modelled as Nat; subtractions that may
  underflow (a panic in the Rust debug build) are modelled with a checked
  subtraction returning Option;
* a Rust panic (assert!, unwrap(), out-of-bounds indexing, unreachable!())
  is modelled by the value none: every fallible engine operation returns
  an Option;
* randomness is modelled by passing the shuffled deck as an explicit
  argument;
* Rust HashMap values are modelled as association lists; where the code
  iterates a HashMap in nondeterministic order the final result is
  order-independent (noted at each use site).
-/

set_option maxHeartbeats 2000000

namespace PokerEden

/-- Suit of a playing card (card.rs, enum Suit). -/
inductive Suit
  | Spade | Heart | Club | Diamond
deriving DecidableEq, Repr

/-- Rank of a playing card, Two .. Ace (card.rs, enum Rank).  The derived
Rust Ord follows declaration order, so Ace is the largest. -/
inductive Rank
  | Two | Three | Four | Five | Six | Seven | Eight | Nine | Ten
  | Jack | Queen | King | Ace
deriving DecidableEq, Repr, Fintype

/-- Discriminant of a rank (Two = 0, ..., Ace = 12); the derived Rust Ord
on Rank compares these values. -/
def Rank.val : Rank → Nat
  | .Two => 0
  | .Three => 1
  | .Four => 2
  | .Five => 3
  | .Six => 4
  | .Seven => 5
  | .Eight => 6
  | .Nine => 7
  | .Ten => 8
  | .Jack => 9
  | .Queen => 10
  | .King => 11
  | .Ace => 12

/-- A playing card (card.rs, struct Card). -/
structure Card where
  rank : Rank
  suit : Suit
deriving DecidableEq, Repr

/-- Hand rank categories with their tie-break information (card.rs, enum
HandRank).  Variants are declared in ascending strength order; the derived
Rust Ord compares the variant discriminant first and then the fields
lexicographically. -/
inductive HandRank
  | HighCard (r1 r2 r3 r4 r5 : Rank)
  | OnePair (r1 r2 r3 r4 : Rank)
  | TwoPair (r1 r2 r3 : Rank)
  | ThreeOfAKind (r1 r2 r3 : Rank)
  | Straight (r : Rank)
  | Flush (r1 r2 r3 r4 r5 : Rank)
  | FullHouse (r1 r2 : Rank)
  | FourOfAKind (r1 r2 : Rank)
  | StraightFlush (r : Rank)
  | RoyalFlush
deriving DecidableEq, Repr

/-- Variant discriminant of a HandRank, in declaration order. -/
def HandRank.ctorIdx : HandRank → Nat
  | .HighCard _ _ _ _ _ => 0
  | .OnePair _ _ _ _ => 1
  | .TwoPair _ _ _ => 2
  | .ThreeOfAKind _ _ _ => 3
  | .Straight _ => 4
  | .Flush _ _ _ _ _ => 5
  | .FullHouse _ _ => 6
  | .FourOfAKind _ _ => 7
  | .StraightFlush _ => 8
  | .RoyalFlush => 9

/-- Field list of a HandRank variant, in declaration order. -/
def HandRank.fieldRanks : HandRank → List Rank
  | .HighCard r1 r2 r3 r4 r5 => [r1, r2, r3, r4, r5]
  | .OnePair r1 r2 r3 r4 => [r1, r2, r3, r4]
  | .TwoPair r1 r2 r3 => [r1, r2, r3]
  | .ThreeOfAKind r1 r2 r3 => [r1, r2, r3]
  | .Straight r => [r]
  | .Flush r1 r2 r3 r4 r5 => [r1, r2, r3, r4, r5]
  | .FullHouse r1 r2 => [r1, r2]
  | .FourOfAKind r1 r2 => [r1, r2]
  | .StraightFlush r => [r]
  | .RoyalFlush => []

/-- Lexicographic comparison of rank lists (equal lengths in practice),
matching the field-by-field comparison of the derived Rust Ord. -/
def cmpRankList : List Rank → List Rank → Ordering
  | [], [] => .eq
  | [], _ :: _ => .lt
  | _ :: _, [] => .gt
  | a :: as_, b :: bs => (compare a.val b.val).then (cmpRankList as_ bs)

/-- The derived total order on HandRank: variant discriminant first, then
fields lexicographically (Rust derive(PartialOrd, Ord)). -/
def HandRank.cmp (x y : HandRank) : Ordering :=
  (compare x.ctorIdx y.ctorIdx).then (cmpRankList x.fieldRanks y.fieldRanks)

/-- Rust `a <= b` on HandRank. -/
def HandRank.le (x y : HandRank) : Prop := x.cmp y ≠ .gt

/-- Rust `a < b` on HandRank. -/
def HandRank.lt (x y : HandRank) : Prop := x.cmp y = .lt

instance : DecidableRel HandRank.le := fun x y =>
  inferInstanceAs (Decidable (x.cmp y ≠ .gt))

instance : DecidableRel HandRank.lt := fun x y =>
  inferInstanceAs (Decidable (x.cmp y = .lt))

/-- Rust Iterator::max over hand ranks: none on an empty list, and the
last of several equal maxima otherwise. -/
def maxHandRank (l : List HandRank) : Option HandRank :=
  l.foldl
    (fun acc x =>
      match acc with
      | none => some x
      | some m => if m.cmp x = .gt then some m else some x)
    none

-- --- 5-card hand evaluation (card.rs) ---

/-- Sorting relation used at card.rs line 211: descending by rank
(sort_by(|a, b| b.rank.cmp(&a.rank)); the Rust sort is stable, as is
List.insertionSort). -/
def cardDesc (a b : Card) : Prop := b.rank.val ≤ a.rank.val

instance : DecidableRel cardDesc := fun a b =>
  inferInstanceAs (Decidable (b.rank.val ≤ a.rank.val))

instance : IsTotal Card cardDesc :=
  ⟨fun a b => Nat.le_total b.rank.val a.rank.val⟩

instance : IsTrans Card cardDesc :=
  ⟨fun _ _ _ hab hbc => Nat.le_trans hbc hab⟩

/-- Sorting relation used at card.rs line 244: descending lexicographically
by (count, rank) (sort_by(|a, b| b.cmp(a))). -/
def countDesc (a b : Nat × Rank) : Prop :=
  b.1 < a.1 ∨ (b.1 = a.1 ∧ b.2.val ≤ a.2.val)

instance : DecidableRel countDesc := fun a b =>
  inferInstanceAs (Decidable (b.1 < a.1 ∨ (b.1 = a.1 ∧ b.2.val ≤ a.2.val)))

instance : IsTotal (Nat × Rank) countDesc := by
  constructor
  intro a b
  rcases Nat.lt_trichotomy a.1 b.1 with h | h | h
  · exact Or.inr (Or.inl h)
  · rcases Nat.le_total b.2.val a.2.val with h2 | h2
    · exact Or.inl (Or.inr ⟨h.symm, h2⟩)
    · exact Or.inr (Or.inr ⟨h, h2⟩)
  · exact Or.inl (Or.inl h)

instance : IsTrans (Nat × Rank) countDesc := by
  constructor
  intro a b c hab hbc
  rcases hab with h1 | ⟨h1, h1'⟩ <;> rcases hbc with h2 | ⟨h2, h2'⟩
  · exact Or.inl (Nat.lt_trans h2 h1)
  · exact Or.inl (h2 ▸ h1)
  · exact Or.inl (h1 ▸ h2)
  · exact Or.inr ⟨h2.trans h1, Nat.le_trans h2' h1'⟩

/-- Check that consecutive ranks each drop by exactly one
(card.rs line 218, ranks.windows(2).all(|w| w[0] as u8 == w[1] as u8 + 1)). -/
def descByOne : List Rank → Bool
  | a :: b :: rest => (a.val = b.val + 1) && descByOne (b :: rest)
  | _ => true

/-- Check that all (adjacent, hence all) cards share one suit
(card.rs line 215, cards.windows(2).all(|w| w[0].suit == w[1].suit)). -/
def allSuitsEq : List Card → Bool
  | a :: b :: rest => (a.suit == b.suit) && allSuitsEq (b :: rest)
  | _ => true

/-- The ace-to-five rank pattern recognised at card.rs line 220. -/
def wheelRanks : List Rank := [.Ace, .Five, .Four, .Three, .Two]

/-- Evaluation of a 5-card hand (card.rs, evaluate_5_card_hand).  Returns
none exactly when the Rust function panics.  The Rust count map is a
HashMap whose iteration order is arbitrary, but after the descending
(count, rank) sort the resulting list is order-independent because the
ranks in it are distinct, so building the pairs from ranks.dedup is
faithful. -/
def evaluate_5_card_hand (hand : List Card) : Option HandRank := do
  guard (hand.length = 5)
  let cards := List.insertionSort cardDesc hand
  let ranks := cards.map Card.rank
  let is_flush := allSuitsEq cards
  let is_straight := descByOne ranks || ranks == wheelRanks
  let r0 ← ranks.get? 0
  let high_card := if ranks = wheelRanks then Rank.Five else r0
  if is_straight && is_flush then
    if high_card = .Ace then pure .RoyalFlush else pure (.StraightFlush high_card)
  else
    let pairs := ranks.dedup.map (fun r => (ranks.count r, r))
    let sorted_counts := List.insertionSort countDesc pairs
    let c0 ← sorted_counts.get? 0
    match c0.1 with
    | 4 => do
      let c1 ← sorted_counts.get? 1
      pure (.FourOfAKind c0.2 c1.2)
    | 3 => do
      let c1 ← sorted_counts.get? 1
      if c1.1 = 2 then
        pure (.FullHouse c0.2 c1.2)
      else do
        let c2 ← sorted_counts.get? 2
        pure (.ThreeOfAKind c0.2 c1.2 c2.2)
    | 2 => do
      let c1 ← sorted_counts.get? 1
      if c1.1 = 2 then do
        let c2 ← sorted_counts.get? 2
        pure (.TwoPair c0.2 c1.2 c2.2)
      else do
        let c2 ← sorted_counts.get? 2
        let c3 ← sorted_counts.get? 3
        pure (.OnePair c0.2 c1.2 c2.2 c3.2)
    | _ =>
      if is_flush then do
        let r1 ← ranks.get? 1
        let r2 ← ranks.get? 2
        let r3 ← ranks.get? 3
        let r4 ← ranks.get? 4
        pure (.Flush r0 r1 r2 r3 r4)
      else if is_straight then
        pure (.Straight high_card)
      else do
        let r1 ← ranks.get? 1
        let r2 ← ranks.get? 2
        let r3 ← ranks.get? 3
        let r4 ← ranks.get? 4
        pure (.HighCard r0 r1 r2 r3 r4)

/-- All size-k combinations of a list, in the order produced by the Rust
helper (card.rs, get_combinations). -/
def get_combinations {α : Type _} : List α → Nat → List (List α)
  | _, 0 => [[]]
  | [], _ + 1 => []
  | a :: rest, k + 1 =>
    if rest.length + 1 < k + 1 then []
    else
      ((get_combinations rest k).map (fun c => a :: c)) ++
        (if rest.length + 1 > k + 1 then get_combinations rest (k + 1) else [])

/-- Best 5-card hand from 5 to 7 cards (card.rs, find_best_hand).  Returns
none exactly when the Rust function panics (card count outside 5..=7, or
an impossible empty maximum). -/
def find_best_hand (all_cards : List Card) : Option HandRank := do
  let card_count := all_cards.length
  guard (5 ≤ card_count ∧ card_count ≤ 7)
  if card_count = 5 then
    evaluate_5_card_hand all_cards
  else do
    let rs ← (get_combinations all_cards 5).mapM evaluate_5_card_hand
    maxHandRank rs

/-- The full 52-card deck in construction order (card.rs, create_deck). -/
def create_deck : List Card :=
  ([Suit.Spade, Suit.Heart, Suit.Club, Suit.Diamond]).flatMap fun suit =>
    ([Rank.Two, .Three, .Four, .Five, .Six, .Seven, .Eight, .Nine, .Ten,
      .Jack, .Queen, .King, .Ace]).map fun rank => Card.mk rank suit

/-- Rust Vec::pop: removes and returns the last element. -/
def popBack {α : Type _} (l : List α) : Option (α × List α) :=
  match l.reverse with
  | [] => none
  | x :: xs => some (x, xs.reverse)

/-- One `if let Some(card) = deck.pop() { cards[idx] = card }` step of
generate_random_hand. -/
def dealStep (st : List Card × List Card) (idx : Nat) : List Card × List Card :=
  match popBack st.1 with
  | none => st
  | some (c, d) => (d, st.2.set idx c)

/-- One `deck.pop();` burn step of generate_random_hand. -/
def burnStep (st : List Card × List Card) : List Card × List Card :=
  match popBack st.1 with
  | none => st
  | some (_, d) => (d, st.2)

/-- Deal 2*k+5 cards from a shuffled deck (card.rs, generate_random_hand).
The shuffled 52-card deck is passed in explicitly (it is produced by an
OS-seeded Fisher-Yates shuffle in Rust).  Returns none exactly when the
assert on the player count fires. -/
def generate_random_hand (k_players : Nat) (shuffled : List Card) :
    Option (List Card) := do
  guard (2 ≤ k_players ∧ k_players ≤ 10)
  let total_cards := 2 * k_players + 5
  let init : List Card × List Card :=
    (shuffled, List.replicate total_cards (Card.mk .Ace .Heart))
  -- hole cards: for i in 0..2 { for j in 0..k { cards[j*2+i] } }
  let holeIdx :=
    ((List.range k_players).map (fun j => j * 2)) ++
      ((List.range k_players).map (fun j => j * 2 + 1))
  let st := holeIdx.foldl dealStep init
  -- flop burn, three flop cards
  let st := burnStep st
  let st := ((List.range 3).map (fun i => 2 * k_players + i)).foldl dealStep st
  -- turn burn, turn card
  let st := burnStep st
  let st := dealStep st (2 * k_players + 3)
  -- river burn, river card
  let st := burnStep st
  let st := dealStep st (2 * k_players + 4)
  pure st.2

-- --- Game state model (state.rs) ---

/-- Player identifiers (128-bit UUIDs in Rust) modelled as Nat. -/
abbrev PlayerId := Nat

/-- Player lifecycle states (state.rs, enum PlayerState). -/
inductive PlayerState
  | Waiting | Playing | AllIn | Folded | SittingOut | Offline
deriving DecidableEq, Repr

/-- Game phases (state.rs, enum GamePhase). -/
inductive GamePhase
  | WaitingForPlayers | PreFlop | Flop | Turn | River | Showdown
deriving DecidableEq, Repr

/-- Actions a player can take (state.rs, enum PlayerAction). -/
inductive PlayerAction
  | Check | Call | BetOrRaise (amount : Nat) | Fold
deriving DecidableEq, Repr

/-- Action menu entries for NextToAct (message.rs, enum PlayerActionType). -/
inductive PlayerActionType
  | Fold | Check | Call (amount : Nat) | Bet (amount : Nat) | Raise (amount : Nat)
deriving DecidableEq, Repr

/-- A seated player (state.rs, struct Player). -/
structure Player where
  id : PlayerId
  nickname : String
  stack : Nat
  wins : Nat
  losses : Nat
  state : PlayerState
  seat_id : Option Nat
deriving DecidableEq, Repr

/-- Per-player showdown outcome (message.rs, struct ShowdownResult). -/
structure ShowdownResult where
  player_id : PlayerId
  hand_rank : Option HandRank
  cards : Option (Card × Card)
  winnings : Nat
deriving DecidableEq, Repr

/-- Engine-emitted events (message.rs, enum ServerMessage; only the
variants the engine itself produces are modelled). -/
inductive ServerMessage
  | HandStarted (hand_player_order : List PlayerId) (dealer_id : PlayerId)
  | PlayerActed (player_id : PlayerId) (action : PlayerAction)
      (total_bet_this_round : Nat) (new_stack : Nat) (new_pot : Nat)
  | NextToAct (player_id : PlayerId) (valid_actions : List PlayerActionType)
  | CommunityCardsDealt (phase : GamePhase) (cards : List Card)
  | BetReturned (player_id : PlayerId) (amount : Nat) (new_stack : Nat)
  | Showdown (results : List ShowdownResult)
  | Info (message : String)
  | Error (message : String)
deriving DecidableEq, Repr

/-- The authoritative per-room game state (state.rs, struct GameState).
Chip quantities (u32 in Rust) are Nat; the players HashMap is an
association list. -/
structure GameState where
  room_id : Nat
  players : List (PlayerId × Player)
  small_blind : Nat
  big_blind : Nat
  seats : Nat
  seated_players : List PlayerId
  hand_player_order : List PlayerId
  player_indices : List (PlayerId × Nat)
  deck : List Card
  phase : GamePhase
  pot : Nat
  bets : List Nat
  community_cards : List (Option Card)
  player_cards : List (Option Card × Option Card)
  player_has_acted : List Bool
  cur_player_idx : Nat
  max_bet : Nat
  last_bet : Nat
  last_raise_amount : Nat
deriving DecidableEq, Repr

-- --- Panic-aware primitives ---

/-- Checked u32 subtraction: none models the debug-build underflow panic. -/
def sub? (a b : Nat) : Option Nat := if b ≤ a then some (a - b) else none

/-- Checked vector write: none models the out-of-bounds indexing panic. -/
def set? {α : Type _} (l : List α) (i : Nat) (a : α) : Option (List α) :=
  if i < l.length then some (l.set i a) else none

/-- HashMap get_mut modelled on an association list: update the (first)
entry with the given key, if any; no insertion. -/
def updateP (l : List (PlayerId × Player)) (pid : PlayerId) (f : Player → Player) :
    List (PlayerId × Player) :=
  match l with
  | [] => []
  | (k, v) :: rest =>
    if k = pid then (k, f v) :: rest else (k, v) :: updateP rest pid f

/-- Short-circuiting `all` whose predicate can panic. -/
def optAll {α : Type _} (p : α → Option Bool) : List α → Option Bool
  | [] => some true
  | x :: xs => do
    let b ← p x
    if b then optAll p xs else pure false

/-- Order-preserving filter whose predicate can panic. -/
def optFilter {α : Type _} (p : α → Option Bool) : List α → Option (List α)
  | [] => some []
  | x :: xs => do
    let b ← p x
    let rest ← optFilter p xs
    pure (if b then x :: rest else rest)

-- --- GameState helpers (state.rs impl) ---

/-- ID of the player whose turn it is (state.rs, current_player_id). -/
def current_player_id (s : GameState) : Option PlayerId :=
  s.hand_player_order.get? s.cur_player_idx

/-- Hand players still contesting the pot (state.rs, get_players_in_hand);
none models the unwrap panic on a missing player record. -/
def get_players_in_hand (s : GameState) : Option (List PlayerId) :=
  optFilter
    (fun id => (List.lookup id s.players).map
      (fun p => p.state == .Playing || p.state == .AllIn))
    s.hand_player_order

/-- Per-recipient view projection (state.rs, for_client). -/
def for_client (s : GameState) (client_id : PlayerId) : Option GameState := do
  let client_idx_opt := List.lookup client_id s.player_indices
  if s.phase = .Showdown then do
    let inHand ← get_players_in_hand s
    let newCards ← s.player_cards.enum.mapM (fun ic => do
      let player_id ← s.hand_player_order.get? ic.1
      pure (if ¬ (player_id ∈ inHand) ∧ some ic.1 ≠ client_idx_opt
        then ((none, none) : Option Card × Option Card) else ic.2))
    pure { s with deck := [], player_cards := newCards }
  else
    let newCards := s.player_cards.enum.map
      (fun ic => if some ic.1 ≠ client_idx_opt then (none, none) else ic.2)
    pure { s with deck := [], player_cards := newCards }

-- --- Showdown helpers (logic.rs) ---

/-- Entry collected by return_uncalled_bets: (index, player id, total bet). -/
def showdown_entries (s : GameState) : Option (List (Nat × PlayerId × Nat)) :=
  s.hand_player_order.enum.foldlM
    (fun acc ip => do
      let p ← List.lookup ip.2 s.players
      if p.state ≠ .Folded ∧ p.state ≠ .SittingOut then do
        let b ← s.bets.get? ip.1
        pure (acc ++ [(ip.1, ip.2, b)])
      else pure acc)
    []

/-- Sorting relation of return_uncalled_bets (logic.rs line 632): descending
by the bet component. -/
def betDesc (a b : Nat × PlayerId × Nat) : Prop := b.2.2 ≤ a.2.2

instance : DecidableRel betDesc := fun a b =>
  inferInstanceAs (Decidable (b.2.2 ≤ a.2.2))

instance : IsTotal (Nat × PlayerId × Nat) betDesc :=
  ⟨fun a b => Nat.le_total b.2.2 a.2.2⟩

instance : IsTrans (Nat × PlayerId × Nat) betDesc :=
  ⟨fun _ _ _ hab hbc => Nat.le_trans hbc hab⟩

/-- Return the single highest uncalled over-commitment before showdown
(logic.rs, return_uncalled_bets). -/
def return_uncalled_bets (s : GameState) : Option (GameState × List ServerMessage) := do
  let entries ← showdown_entries s
  if entries.length < 2 then pure (s, [])
  else do
    let sorted := List.insertionSort betDesc entries
    let highest ← sorted.get? 0
    let second ← sorted.get? 1
    if highest.2.2 > second.2.2 then
      match List.lookup highest.2.1 s.players with
      | some player =>
        let amount := highest.2.2 - second.2.2
        let players1 := updateP s.players highest.2.1
          (fun p => { p with stack := p.stack + amount })
        let newPot ← sub? s.pot amount
        let bets1 ← set? s.bets highest.1 second.2.2
        pure ({ s with players := players1, pot := newPot, bets := bets1 },
          [ServerMessage.BetReturned highest.2.1 amount (player.stack + amount)])
      | none => pure (s, [])
    else pure (s, [])

/-- A pot contributor (logic.rs, struct Contributor inside distribute_pots). -/
structure Contributor where
  id : PlayerId
  bet_amount : Nat
  rank : Option HandRank
deriving DecidableEq, Repr

/-- Final hand ranks of the non-folded players with dealt hole cards
(logic.rs lines 682-696).  The Rust HashMap is modelled as an association
list in hand order. -/
def compute_hand_ranks (s : GameState) : Option (List (PlayerId × HandRank)) := do
  let revealed := s.community_cards.filterMap id
  s.hand_player_order.enum.foldlM
    (fun acc ip => do
      let player ← List.lookup ip.2 s.players
      if player.state ≠ .Folded then do
        let pc ← s.player_cards.get? ip.1
        match pc with
        | (some c1, some c2) => do
          let hr ← find_best_hand (revealed ++ [c1, c2])
          pure (acc ++ [(ip.2, hr)])
        | _ => pure acc
      else pure acc)
    []

/-- Per-player contribution records (logic.rs lines 698-707). -/
def compute_contributors (s : GameState) (ranksMap : List (PlayerId × HandRank)) :
    Option (List Contributor) :=
  s.hand_player_order.enum.mapM
    (fun ip => do
      let b ← s.bets.get? ip.1
      pure (Contributor.mk ip.2 b (List.lookup ip.2 ranksMap)))

/-- Distinct positive bet amounts, ascending (logic.rs lines 710-716). -/
def bet_levels_of (contributors : List Contributor) : List Nat :=
  (List.insertionSort (· ≤ ·)
    ((contributors.map Contributor.bet_amount).filter (fun b => 0 < b))).dedup

/-- Chips collected into the pot tier at `level` (logic.rs lines 729-732). -/
def pot_at_level (contributors : List Contributor) (last_level level : Nat) : Nat :=
  contributors.foldl
    (fun acc c =>
      if c.bet_amount > last_level
      then acc + min (level - last_level) (c.bet_amount - last_level)
      else acc)
    0

/-- Contributors entitled to the tier at `level` (logic.rs line 733). -/
def eligible_at_level (contributors : List Contributor) (level : Nat) : List Contributor :=
  contributors.filter (fun c => level ≤ c.bet_amount && c.rank.isSome)

/-- One step of the winner-selection loop (logic.rs lines 743-764): keep
everyone tied at the running maximum rank. -/
def pick_winners_step (st : Option HandRank × List PlayerId) (p : Contributor) :
    Option (Option HandRank × List PlayerId) := do
  let rank ← p.rank
  match st.1 with
  | none => pure (some rank, [p.id])
  | some br =>
    if rank.cmp br = .gt then pure (some rank, [p.id])
    else if rank = br then pure (st.1, st.2 ++ [p.id])
    else pure st

/-- Winner selection among the eligible contributors (logic.rs lines
743-764). -/
def pick_winners (eligible : List Contributor) : Option (List PlayerId) := do
  let st ← eligible.foldlM pick_winners_step (none, [])
  pure st.2

/-- Accumulate winnings (logic.rs line 774, entry().or_insert(0) += amt). -/
def bumpWinnings : List (PlayerId × Nat) → PlayerId → Nat → List (PlayerId × Nat)
  | [], pid, amt => [(pid, amt)]
  | (k, v) :: rest, pid, amt =>
    if k = pid then (k, v + amt) :: rest else (k, v) :: bumpWinnings rest pid amt

/-- One step of the payout loop (logic.rs lines 769-776): pay the enumerated
winner its share, with the remainder going to enum index 0. -/
def award_step (win_amount remainder : Nat)
    (st : List (PlayerId × Player) × List (PlayerId × Nat)) (iw : Nat × PlayerId) :
    List (PlayerId × Player) × List (PlayerId × Nat) :=
  match List.lookup iw.2 st.1 with
  | some _ =>
    let amt := win_amount + (if iw.1 = 0 then remainder else 0)
    (updateP st.1 iw.2 (fun p => { p with stack := p.stack + amt }),
      bumpWinnings st.2 iw.2 amt)
  | none => st

/-- Pay one tier out to its winners (logic.rs lines 767-777); the integer
remainder goes to the first winner. -/
def award_winners (players : List (PlayerId × Player)) (winners : List PlayerId)
    (current_pot : Nat) (tw : List (PlayerId × Nat)) :
    List (PlayerId × Player) × List (PlayerId × Nat) :=
  if winners.isEmpty then (players, tw)
  else
    winners.enum.foldl
      (award_step (current_pot / winners.length) (current_pot % winners.length))
      (players, tw)

/-- The tier loop of distribute_pots (logic.rs lines 718-779). -/
def level_loop (contributors : List Contributor) :
    List Nat → Nat → List (PlayerId × Player) → List (PlayerId × Nat) →
    Option (List (PlayerId × Player) × List (PlayerId × Nat))
  | [], _, players, tw => pure (players, tw)
  | level :: rest, last_level, players, tw => do
    let current_pot := pot_at_level contributors last_level level
    let eligible := eligible_at_level contributors level
    if current_pot = 0 then level_loop contributors rest level players tw
    else do
      let winners ← pick_winners eligible
      let st := award_winners players winners current_pot tw
      level_loop contributors rest level st.1 st.2

/-- Multi-tier side-pot distribution (logic.rs, distribute_pots).  The
results list follows hand order where the Rust HashMap iteration order is
arbitrary; nothing below depends on that order. -/
def distribute_pots (s : GameState) : Option (GameState × List ServerMessage) := do
  if s.pot = 0 then pure (s, [])
  else do
    let ranksMap ← compute_hand_ranks s
    let contributors ← compute_contributors s ranksMap
    let levels := bet_levels_of contributors
    let (players1, tw) ← level_loop contributors levels 0 s.players []
    let players2 := tw.foldl
      (fun ps kv => updateP ps kv.1 (fun p => { p with wins := p.wins + 1 }))
      players1
    let players3 := s.hand_player_order.foldl
      (fun ps pid => updateP ps pid
        (fun p => if p.stack = 0
          then { p with losses := p.losses + 1, state := .Offline } else p))
      players2
    let s1 := { s with players := players3 }
    let results ← ranksMap.mapM (fun kv => do
      let player_idx ← List.lookup kv.1 s1.player_indices
      let pc ← s1.player_cards.get? player_idx
      let c1 ← pc.1
      let c2 ← pc.2
      pure (ShowdownResult.mk kv.1 (some kv.2) (some (c1, c2))
        ((List.lookup kv.1 tw).getD 0)))
    pure ({ s1 with pot := 0 }, [ServerMessage.Showdown results])

/-- Hand won without contest (logic.rs, distribute_pot_to_single_winner_group). -/
def distribute_pot_to_single_winner_group (s : GameState) (winners : List PlayerId) :
    Option (GameState × List ServerMessage) := do
  if winners.isEmpty ∨ s.pot = 0 then pure (s, [])
  else do
    let win_amount_per_player := s.pot / winners.length
    let remainder := s.pot % winners.length
    let community := s.community_cards.filterMap id
    let st ← winners.enum.foldlM
      (fun (st : List (PlayerId × Player) × List ShowdownResult) iw => do
        let _player ← List.lookup iw.2 st.1
        let winnings := win_amount_per_player + (if iw.1 = 0 then remainder else 0)
        let players1 := updateP st.1 iw.2
          (fun p => { p with stack := p.stack + winnings, wins := p.wins + 1 })
        if 3 ≤ community.length then do
          let player_idx ← List.lookup iw.2 s.player_indices
          let pc ← s.player_cards.get? player_idx
          match pc with
          | (some c1, some c2) => do
            let hr ← find_best_hand (community ++ [c1, c2])
            pure (players1, st.2 ++ [ShowdownResult.mk iw.2 (some hr) (some (c1, c2)) winnings])
          | _ => none
        else
          pure (players1, st.2 ++ [ShowdownResult.mk iw.2 none none winnings]))
      (s.players, [])
    pure ({ s with players := st.1, pot := 0 }, [ServerMessage.Showdown st.2])

/-- Showdown entry point (logic.rs, handle_showdown). -/
def handle_showdown (s : GameState) : Option (GameState × List ServerMessage) := do
  let (s1, m1) ← return_uncalled_bets s
  let (s2, m2) ← distribute_pots s1
  pure (s2, m1 ++ m2)

-- --- Betting round machinery (logic.rs) ---

/-- Round-completion predicate (logic.rs, check_betting_round_over). -/
def check_betting_round_over (s : GameState) : Option Bool := do
  let players_to_act := (s.hand_player_order.enum.filterMap
      (fun ip => (List.lookup ip.2 s.players).map (fun p => (ip.1, p)))).filter
    (fun x => x.2.state != PlayerState.Folded && x.2.state != PlayerState.AllIn)
  if players_to_act.isEmpty then pure true
  else do
    let all_bets_match ← optAll
      (fun x => (s.bets.get? x.1).map (fun b => b == s.max_bet)) players_to_act
    if ¬ all_bets_match then pure false
    else optAll (fun x => s.player_has_acted.get? x.1) players_to_act

/-- Search loop of advance_to_next_player (logic.rs lines 439-459); the
fuel argument is the remaining number of loop iterations, starting at the
hand size. -/
def next_player_loop (s : GameState) : Nat → Nat → Option (GameState × List ServerMessage)
  | _, 0 => pure (s, [])
  | current_idx, fuel + 1 => do
    let ci := (current_idx + 1) % s.hand_player_order.length
    let next_player_id ← s.hand_player_order.get? ci
    match List.lookup next_player_id s.players with
    | some player =>
      if player.state = .Playing then do
        let actedHere ← s.player_has_acted.get? ci
        if ¬ actedHere then do
          let s1 := { s with cur_player_idx := ci }
          let curBet ← s1.bets.get? ci
          let need_call ← sub? s1.max_bet curBet
          let need_raise := need_call + s1.last_raise_amount
          pure (s1, [ServerMessage.NextToAct next_player_id
            [(if need_call > 0 then .Call need_call else .Check),
             (if need_call > 0 then .Raise need_raise else .Bet need_raise),
             PlayerActionType.Fold]])
        else next_player_loop s ci fuel
      else next_player_loop s ci fuel
    | none => next_player_loop s ci fuel

/-- Pass the turn to the next eligible player (logic.rs,
advance_to_next_player). -/
def advance_to_next_player (s : GameState) : Option (GameState × List ServerMessage) :=
  next_player_loop s s.cur_player_idx s.hand_player_order.length

/-- Deal the flop (logic.rs, local fn preflop_to_flop). -/
def preflop_to_flop (s : GameState) : Option (GameState × ServerMessage) := do
  let s := { s with phase := .Flop }
  let (c1, d1) ← popBack s.deck
  let (c2, d2) ← popBack d1
  let (c3, d3) ← popBack d2
  guard (3 ≤ s.community_cards.length)
  let cc := ((s.community_cards.set 0 (some c1)).set 1 (some c2)).set 2 (some c3)
  pure ({ s with deck := d3, community_cards := cc },
    .CommunityCardsDealt .Flop [c1, c2, c3])

/-- Deal the turn (logic.rs, local fn flop_to_turn). -/
def flop_to_turn (s : GameState) : Option (GameState × ServerMessage) := do
  let s := { s with phase := .Turn }
  let (c, d) ← popBack s.deck
  let cc ← set? s.community_cards 3 (some c)
  pure ({ s with deck := d, community_cards := cc }, .CommunityCardsDealt .Turn [c])

/-- Deal the river (logic.rs, local fn turn_to_river). -/
def turn_to_river (s : GameState) : Option (GameState × ServerMessage) := do
  let s := { s with phase := .River }
  let (c, d) ← popBack s.deck
  let cc ← set? s.community_cards 4 (some c)
  pure ({ s with deck := d, community_cards := cc }, .CommunityCardsDealt .River [c])

/-- Common tail of advance_to_next_phase after a street was dealt
(logic.rs lines 562-599): find the next actor or run the board out. -/
def post_deal_advance (s : GameState) (msgs : List ServerMessage) :
    Option (GameState × List ServerMessage) := do
  let n := s.hand_player_order.length
  let candidates := (List.range' 1 (n - 1)) ++ [0]
  let potential_actors ← optFilter
    (fun i => (s.hand_player_order.get? i).map
      (fun pid => match List.lookup pid s.players with
        | some p => p.state != PlayerState.Folded && p.state != PlayerState.AllIn
        | none => false))
    candidates
  if potential_actors.length < 2 then do
    -- run the board out: the Rust loop advances PreFlop → Flop → Turn →
    -- River and then breaks, so it is the following three conditionals
    let (s, msgs) ←
      if s.phase = .PreFlop then do
        let (s1, m) ← preflop_to_flop s
        pure (s1, msgs ++ [m])
      else pure (s, msgs)
    let (s, msgs) ←
      if s.phase = .Flop then do
        let (s1, m) ← flop_to_turn s
        pure (s1, msgs ++ [m])
      else pure (s, msgs)
    let (s, msgs) ←
      if s.phase = .Turn then do
        let (s1, m) ← turn_to_river s
        pure (s1, msgs ++ [m])
      else pure (s, msgs)
    let s := { s with phase := .Showdown }
    let (s2, m2) ← handle_showdown s
    pure (s2, msgs ++ m2)
  else do
    let first ← potential_actors.get? 0
    let s := { s with cur_player_idx := first }
    let pid ← s.hand_player_order.get? s.cur_player_idx
    pure (s, msgs ++ [ServerMessage.NextToAct pid
      [.Check, .Bet s.last_raise_amount, PlayerActionType.Fold]])

/-- Street advancement after a betting round completes (logic.rs,
advance_to_next_phase). -/
def advance_to_next_phase (s : GameState) : Option (GameState × List ServerMessage) := do
  let s := { s with player_has_acted := List.replicate s.player_has_acted.length false,
                    last_raise_amount := s.big_blind }
  match s.phase with
  | .PreFlop => do
    let (s1, m) ← preflop_to_flop s
    post_deal_advance s1 [m]
  | .Flop => do
    let (s1, m) ← flop_to_turn s
    post_deal_advance s1 [m]
  | .Turn => do
    let (s1, m) ← turn_to_river s
    post_deal_advance s1 [m]
  | .River => do
    let s1 := { s with phase := .Showdown }
    handle_showdown s1
  | _ => pure (s, [])

/-- State mutation of an accepted BetOrRaise (logic.rs lines 361-388):
move chips, update max_bet / last_raise_amount, mark all-in, and clear
player_has_acted for every other live player. -/
def applyRaiseMutation (s : GameState) (player_id : PlayerId)
    (player_idx raise_amount new_total_bet stack_after : Nat) : Option GameState := do
  let players1 := updateP s.players player_id
    (fun p => { p with stack := p.stack - raise_amount })
  let bets1 ← set? s.bets player_idx new_total_bet
  let s1 := { s with players := players1, pot := s.pot + raise_amount, bets := bets1 }
  let s2 :=
    if new_total_bet > s1.max_bet then
      { s1 with
        last_raise_amount :=
          if stack_after > 0 then new_total_bet - s1.max_bet else s1.last_raise_amount,
        max_bet := new_total_bet }
    else s1
  let s3 :=
    if stack_after = 0 then
      { s2 with players := updateP s2.players player_id (fun p => { p with state := .AllIn }) }
    else s2
  let acted ← s3.hand_player_order.enum.foldlM
    (fun (acted : List Bool) ip =>
      if ip.2 ≠ player_id then
        match List.lookup ip.2 s3.players with
        | some p =>
          if p.state ≠ .Folded ∧ p.state ≠ .AllIn then set? acted ip.1 false
          else pure acted
        | none => pure acted
      else pure acted)
    s3.player_has_acted
  pure { s3 with player_has_acted := acted }

/-- Validation-and-mutation block of handle_player_action (logic.rs lines
292-391): either an early rule-error return (inl, with the error text) or
the mutated state (inr). -/
def applyActionBlock (s : GameState) (player_id : PlayerId)
    (player_idx player_total_bet amount_to_call : Nat) (player : Player)
    (action : PlayerAction) : Option (String ⊕ GameState) := do
  match action with
  | .Fold =>
    pure (.inr { s with players := updateP s.players player_id (fun p => { p with state := .Folded }) })
  | .Check =>
    if amount_to_call ≠ 0 then
      pure (.inl ("当前有人下注 " ++ toString amount_to_call ++ "，你至少要下注和他相等"))
    else pure (.inr s)
  | .Call =>
    if amount_to_call > 0 then do
      let call_amount := min amount_to_call player.stack
      let players1 := updateP s.players player_id
        (fun p =>
          let p1 := { p with stack := p.stack - call_amount }
          if p1.stack = 0 then { p1 with state := .AllIn } else p1)
      let bets1 ← set? s.bets player_idx (player_total_bet + call_amount)
      pure (.inr { s with players := players1, pot := s.pot + call_amount, bets := bets1 })
    else pure (.inr s)
  | .BetOrRaise raise_amount =>
    if raise_amount = 0 ∨ raise_amount > player.stack then
      pure (.inl ("你只能下注你剩余的筹码 " ++ toString player.stack ++ " 或更少"))
    else do
      let new_total_bet := player_total_bet + raise_amount
      if s.max_bet = player_total_bet then
        if raise_amount < s.big_blind ∧ player.stack > raise_amount then
          pure (.inl ("你只能下注大盲注 " ++ toString s.big_blind ++ " 或更多"))
        else do
          let s1 ← applyRaiseMutation s player_id player_idx raise_amount new_total_bet
            (player.stack - raise_amount)
          pure (.inr s1)
      else
        if new_total_bet ≤ s.max_bet then
          pure (.inl ("你只能加注 " ++ toString (amount_to_call + s.last_raise_amount) ++ " 或更多"))
        else
          if new_total_bet - s.max_bet < s.last_raise_amount ∧ player.stack > raise_amount then
            pure (.inl ("你只能加注 " ++ toString (amount_to_call + s.last_raise_amount) ++ " 或更多"))
          else do
            let s1 ← applyRaiseMutation s player_id player_idx raise_amount new_total_bet
              (player.stack - raise_amount)
            pure (.inr s1)

/-- Process one player action (logic.rs, handle_player_action). -/
def handle_player_action (s : GameState) (player_id : PlayerId) (action : PlayerAction) :
    Option (GameState × List ServerMessage) := do
  if current_player_id s ≠ some player_id then
    pure (s, [ServerMessage.Error "当前不该你行动"])
  else do
    let player_idx ← List.lookup player_id s.player_indices
    let player_total_bet ← s.bets.get? player_idx
    let amount_to_call ← sub? s.max_bet player_total_bet
    let player ← List.lookup player_id s.players
    let blk ← applyActionBlock s player_id player_idx player_total_bet amount_to_call
      player action
    match blk with
    | .inl emsg => pure (s, [ServerMessage.Error emsg])
    | .inr s1 => do
      let playerN ← List.lookup player_id s1.players
      let tb ← s1.bets.get? player_idx
      let msgs1 := [ServerMessage.PlayerActed player_id action tb playerN.stack s1.pot]
      let acted1 ← set? s1.player_has_acted player_idx true
      let s2 := { s1 with player_has_acted := acted1 }
      let players_in_hand := s2.hand_player_order.filter
        (fun id => match List.lookup id s2.players with
          | some p => p.state != PlayerState.Folded
          | none => false)
      if players_in_hand.length ≤ 1 then do
        let s3 := { s2 with phase := .Showdown }
        let (s4, m2) ← distribute_pot_to_single_winner_group s3 players_in_hand
        pure (s4, msgs1 ++ m2)
      else do
        let over ← check_betting_round_over s2
        if over then do
          let (s3, m2) ← advance_to_next_phase s2
          pure (s3, msgs1 ++ m2)
        else do
          let (s3, m2) ← advance_to_next_player s2
          pure (s3, msgs1 ++ m2)

-- --- Hand start (logic.rs, start_new_hand) ---

/-- Pre-hand coercion of offline or broke players to SittingOut
(logic.rs lines 72-79). -/
def coerce_sitting_out (s : GameState) : GameState :=
  { s with players := (s.seated_players.foldl
      (fun ps pid => updateP ps pid
        (fun p => if p.state = .Offline ∨ p.stack = 0 then { p with state := .SittingOut } else p))
      s.players) }

/-- Participants of the coming hand, in seating order (logic.rs lines 82-91). -/
def participants_of (s : GameState) : List PlayerId :=
  s.seated_players.filter
    (fun pid => match List.lookup pid s.players with
      | some p => p.state != PlayerState.SittingOut && p.stack != 0
      | none => false)

/-- Field resets done at hand start (logic.rs lines 100-125). -/
def reset_for_hand (s : GameState) (order : List PlayerId) : GameState :=
  { s with
    player_indices := order.enum.map (fun ip => (ip.2, ip.1)),
    pot := 0,
    community_cards := List.replicate 5 none,
    max_bet := 0,
    player_cards := List.replicate order.length (none, none),
    bets := List.replicate order.length 0,
    player_has_acted := List.replicate order.length false,
    last_raise_amount := s.big_blind }

/-- Deal two hole cards to each participant and mark them Playing
(logic.rs lines 132-139). -/
def deal_hole_cards (s : GameState) : Option GameState :=
  s.hand_player_order.enum.foldlM
    (fun (st : GameState) ip =>
      match List.lookup ip.2 st.players with
      | none => pure st
      | some _ => do
        let players2 := updateP st.players ip.2 (fun p => { p with state := .Playing })
        let (card1, d1) ← popBack st.deck
        let (card2, d2) ← popBack d1
        let pcs ← set? st.player_cards ip.1 (some card1, some card2)
        pure { st with players := players2, deck := d2, player_cards := pcs })
    s

/-- Post one blind: transfer min(blind, stack), mark AllIn on a zero
stack, and emit the PlayerActed event (logic.rs lines 164-200, identical
for the small and the big blind). -/
def post_blind (s : GameState) (idx : Nat) (blind : Nat) :
    Option (GameState × ServerMessage) := do
  let pid ← s.hand_player_order.get? idx
  let player ← List.lookup pid s.players
  let amount := min blind player.stack
  let players1 := updateP s.players pid
    (fun p =>
      let p1 := { p with stack := p.stack - amount }
      if p1.stack = 0 then { p1 with state := .AllIn } else p1)
  let s1 := { s with players := players1, pot := s.pot + amount }
  let bets1 ← set? s1.bets idx amount
  let s2 := { s1 with bets := bets1 }
  let b ← s2.bets.get? idx
  let now ← List.lookup pid s2.players
  pure (s2, ServerMessage.PlayerActed pid (.BetOrRaise amount) b now.stack s2.pot)

/-- Begin a new hand (logic.rs, start_new_hand).  The freshly shuffled
52-card deck consumed by generate_random_hand is an explicit argument. -/
def start_new_hand (s0 : GameState) (shuffled : List Card) :
    Option (GameState × List ServerMessage) := do
  let sA := coerce_sitting_out s0
  let order := participants_of sA
  let sB := { sA with hand_player_order := order }
  let active := order.length
  if active < 2 then
    pure ({ sB with phase := .WaitingForPlayers }, [])
  else do
    let dealer ← order.get? 0
    let sC := reset_for_hand sB order
    -- the Rust code passes the card count, not the player count, to
    -- generate_random_hand here (logic.rs lines 128-129)
    let deck0 ← generate_random_hand (active * 2 + 5) shuffled
    let sD ← deal_hole_cards { sC with deck := deck0 }
    let sb_idx := if active = 2 then 0 else 1 % active
    let bb_idx := if active = 2 then 1 else 2 % active
    let first_to_act_idx := if active = 2 then 0 else (2 % active + 1) % active
    let (sE, sbMsg) ← post_blind sD sb_idx sD.small_blind
    let (sF, bbMsg) ← post_blind sE bb_idx sE.big_blind
    let sG := { sF with max_bet := sF.big_blind, phase := .PreFlop,
                        cur_player_idx := first_to_act_idx }
    let curBet ← sG.bets.get? sG.cur_player_idx
    let callAmt ← sub? sG.max_bet curBet
    let nid ← sG.hand_player_order.get? sG.cur_player_idx
    pure (sG, [ServerMessage.HandStarted order dealer, sbMsg, bbMsg,
      ServerMessage.NextToAct nid [.Call callAmt, .Raise sG.last_raise_amount,
        PlayerActionType.Fold]])

-- --- Concrete states used by the theorems below ---

/-- Player record with the given id, stack and state. -/
def mkP (pid : PlayerId) (stackAmt : Nat) (st : PlayerState) : Player :=
  { id := pid, nickname := "P", stack := stackAmt, wins := 0, losses := 0,
    state := st, seat_id := none }

/-- A waiting room with one seated player per entry of the stack list,
blinds 10/20. -/
def roomWith (stackList : List Nat) : GameState :=
  { room_id := 0,
    players := stackList.enum.map (fun p => (p.1, mkP p.1 p.2 .Waiting)),
    small_blind := 10, big_blind := 20, seats := 10,
    seated_players := List.range stackList.length,
    hand_player_order := [], player_indices := [], deck := [],
    phase := .WaitingForPlayers, pot := 0, bets := [],
    community_cards := List.replicate 5 none,
    player_cards := List.replicate 5 (none, none),
    player_has_acted := [], cur_player_idx := 0, max_bet := 0, last_bet := 0,
    last_raise_amount := 0 }

/-- Flop-street state: players 0 and 1 have acted and matched max_bet 180
(after a raise of 120), player 2 with stack 200 is to act. -/
def underMinAllInState : GameState :=
  { roomWith [820, 820, 200] with
    phase := .Flop,
    hand_player_order := [0, 1, 2],
    player_indices := [(0, 0), (1, 1), (2, 2)],
    pot := 360, bets := [180, 180, 0], max_bet := 180, last_raise_amount := 120,
    player_has_acted := [true, true, false], cur_player_idx := 2,
    player_cards := List.replicate 3 (none, none),
    players := [(0, mkP 0 820 .Playing), (1, mkP 1 820 .Playing),
      (2, mkP 2 200 .Playing)] }

/-- Five identical cards: an input with duplicates. -/
def dupFive : List Card := List.replicate 5 (Card.mk .Ace .Spade)

/-- Showdown state in which hand player 1 is Offline (hence not folded)
with dealt hole cards. -/
def showdownOfflineState : GameState :=
  { roomWith [100, 100] with
    phase := .Showdown,
    hand_player_order := [0, 1],
    player_indices := [(0, 0), (1, 1)],
    bets := [50, 50], pot := 0,
    player_cards := [(some (Card.mk .Ace .Spade), some (Card.mk .King .Spade)),
      (some (Card.mk .Queen .Heart), some (Card.mk .Jack .Heart))],
    players := [(0, mkP 0 100 .Playing), (1, mkP 1 100 .Offline)] }

/-- Total chips on the table: every seated player's stack plus the pot. -/
def totalChips (s : GameState) : Nat :=
  (s.players.map (fun e => e.2.stack)).sum + s.pot

/-- Flop-street 3-handed state after a 30-chip preflop round: stacks
(970, 970, 170), cumulative bets 30 each, pot 90, blinds 10/20, player 0
to act. -/
def flopLeakState : GameState :=
  { roomWith [970, 970, 170] with
    phase := .Flop,
    hand_player_order := [0, 1, 2],
    player_indices := [(0, 0), (1, 1), (2, 2)],
    pot := 90, bets := [30, 30, 30], max_bet := 30, last_raise_amount := 20,
    player_has_acted := [false, false, false], cur_player_idx := 0,
    community_cards := [some (Card.mk .Two .Spade), some (Card.mk .Seven .Heart),
      some (Card.mk .Nine .Diamond), none, none],
    deck := [Card.mk .Three .Club, Card.mk .Four .Diamond],
    player_cards := [(some (Card.mk .Queen .Spade), some (Card.mk .Queen .Heart)),
      (some (Card.mk .Ace .Spade), some (Card.mk .Ace .Heart)),
      (some (Card.mk .King .Spade), some (Card.mk .King .Heart))],
    players := [(0, mkP 0 970 .Playing), (1, mkP 1 970 .Playing),
      (2, mkP 2 170 .Playing)] }

/-- From flopLeakState: player 0 bets 300 (total 330), player 1 raises to
630, player 2 calls all-in for its last 170 (total 200), player 0 folds;
the betting round then closes and the engine runs the board out to
showdown, returns player 1's uncalled 430, and distributes the pots. -/
def leakRun : Option GameState := do
  let (s1, _) ← handle_player_action flopLeakState 0 (.BetOrRaise 300)
  let (s2, _) ← handle_player_action s1 1 (.BetOrRaise 600)
  let (s3, _) ← handle_player_action s2 2 .Call
  let (s4, _) ← handle_player_action s3 0 .Fold
  pure s4

/-- The rejection conditions of handle_player_action (logic.rs lines
281-358), stated on the quantities the code computes (bet is the actor's
current-round commitment, player their record): the actor is not the
current player; a Check while chips are owed; a BetOrRaise with a zero or
over-stack increment; an opening bet below the big blind with chips
behind; or a raise that does not exceed max_bet, or whose increment is
below last_raise_amount with chips behind. -/
def invalid_action_for (s : GameState) (pid : PlayerId) (a : PlayerAction)
    (bet : Nat) (player : Player) : Prop :=
  current_player_id s ≠ some pid ∨
  (a = .Check ∧ s.max_bet - bet ≠ 0) ∨
  (∃ d, a = .BetOrRaise d ∧ (d = 0 ∨ player.stack < d)) ∨
  (∃ d, a = .BetOrRaise d ∧ ¬ (d = 0 ∨ player.stack < d) ∧
    s.max_bet = bet ∧ d < s.big_blind ∧ d < player.stack) ∨
  (∃ d, a = .BetOrRaise d ∧ ¬ (d = 0 ∨ player.stack < d) ∧ s.max_bet ≠ bet ∧
    (bet + d ≤ s.max_bet ∨ (bet + d - s.max_bet < s.last_raise_amount ∧ d < player.stack)))

/-- Base-15 numeric encoding of a rank field list. -/
def fieldsKey : List Rank → Nat
  | [] => 0
  | r :: rs => r.val * 15 ^ rs.length + fieldsKey rs

/-- Numeric encoding of a HandRank that realises the derived Rust order. -/
def HandRank.key (x : HandRank) : Nat := x.ctorIdx * 15 ^ 5 + fieldsKey x.fieldRanks

-- --- Spec-side pot distribution (spec 4.2.5, for C1) ---

/-- Spec 4.2.5: contenders at a level are the eligible players whose total
bet reaches the level (eligibility encoded as a present hand rank). -/
def specContenders (cs : List Contributor) (level : Nat) : List Contributor :=
  cs.filter (fun c => level ≤ c.bet_amount && c.rank.isSome)

/-- Spec 4.2.5: the contenders tied at the maximum hand rank, in hand
order. -/
def specWinners (cs : List Contributor) : List PlayerId :=
  (cs.filter (fun c =>
    match c.rank with
    | none => false
    | some r => cs.all (fun d =>
        match d.rank with
        | none => true
        | some rd => decide (rd.le r)))).map Contributor.id

/-- Spec 4.2.5: pot_at_level = sum over players of
min(slice, max(0, total_bet - prev_level)), with Nat subtraction giving
the max(0, _) truncation. -/
def specPotAtLevel (cs : List Contributor) (prev level : Nat) : Nat :=
  (cs.map (fun c => min (level - prev) (c.bet_amount - prev))).sum

/-- Spec 4.2.5: one tier's payout to a given player: an even split of the
tier pot over the winners, with the integer remainder going to the first
winner in hand order. -/
def specTierAward (cs : List Contributor) (prev level : Nat) (pid : PlayerId) : Nat :=
  let pot := specPotAtLevel cs prev level
  let ws := specWinners (specContenders cs level)
  if pid ∈ ws then
    pot / ws.length + (if ws.head? = some pid then pot % ws.length else 0)
  else 0

/-- Spec 4.2.5: total winnings of a player over the ascending bet levels. -/
def specWinnings (cs : List Contributor) : List Nat → Nat → PlayerId → Nat
  | [], _, _ => 0
  | level :: rest, prev, pid =>
    specTierAward cs prev level pid + specWinnings cs rest level pid

/-- Showdown state exercising two pot tiers: bets 50/100/100, pot 250,
three live players, player 1 holding the best hand (a pair of aces). -/
def tierPayState : GameState :=
  { roomWith [950, 900, 900] with
    phase := .Showdown,
    hand_player_order := [0, 1, 2],
    player_indices := [(0, 0), (1, 1), (2, 2)],
    pot := 250, bets := [50, 100, 100], max_bet := 100,
    player_has_acted := [true, true, true], cur_player_idx := 0,
    community_cards := [some (Card.mk .Two .Spade), some (Card.mk .Seven .Heart),
      some (Card.mk .Nine .Diamond), none, none],
    player_cards := [(some (Card.mk .King .Club), some (Card.mk .Queen .Club)),
      (some (Card.mk .Ace .Club), some (Card.mk .Ace .Diamond)),
      (some (Card.mk .Jack .Club), some (Card.mk .Ten .Club))],
    players := [(0, mkP 0 950 .Playing), (1, mkP 1 900 .Playing),
      (2, mkP 2 900 .Playing)] }

-- ===================================================================
-- Theorems
-- ===================================================================

lemma some_pair_error {s s' : GameState} {m : String} {msgs : List ServerMessage}
    (h : (some (s, [ServerMessage.Error m]) : Option (GameState × List ServerMessage)) =
      some (s', msgs)) :
    s' = s ∧ ∃ t, msgs = [ServerMessage.Error t] := by
  have h2 := Prod.mk.inj (Option.some.inj h)
  exact ⟨h2.1.symm, m, h2.2.symm⟩

lemma hpa_not_turn (s : GameState) (pid : PlayerId) (a : PlayerAction)
    (s' : GameState) (msgs : List ServerMessage)
    (hc : current_player_id s ≠ some pid)
    (h : handle_player_action s pid a = some (s', msgs)) :
    s' = s ∧ ∃ t, msgs = [ServerMessage.Error t] := by
  unfold handle_player_action at h
  rw [if_pos hc] at h
  exact some_pair_error h

lemma hpa_error_path (s : GameState) (pid : PlayerId) (a : PlayerAction)
    (idx bet : Nat) (player : Player) (emsg : String)
    (hc : current_player_id s = some pid)
    (hidx : List.lookup pid s.player_indices = some idx)
    (hbet : s.bets.get? idx = some bet)
    (hble : bet ≤ s.max_bet)
    (hp : List.lookup pid s.players = some player)
    (hblk : applyActionBlock s pid idx bet (s.max_bet - bet) player a = some (.inl emsg)) :
    handle_player_action s pid a = some (s, [ServerMessage.Error emsg]) := by
  have hsub : sub? s.max_bet bet = some (s.max_bet - bet) := if_pos hble
  unfold handle_player_action
  rw [if_neg (not_not_intro hc)]
  simp only [hidx, Option.bind_eq_bind, Option.some_bind, hbet, hsub, hp, hblk]
  rfl

/-- C7: an invalid action (wrong actor, Check while owing chips, zero or
over-stack BetOrRaise, or a bet or raise below the required minimum with
chips behind) makes handle_player_action return exactly one Error event
and leave the state unchanged.  The routing of that event to the sender
only is done by the session layer, outside the engine. -/
theorem handle_player_action_rejects_invalid (s : GameState) (pid : PlayerId)
    (a : PlayerAction) (idx bet : Nat) (player : Player) (s' : GameState)
    (msgs : List ServerMessage)
    (hidx : List.lookup pid s.player_indices = some idx)
    (hbet : s.bets.get? idx = some bet)
    (hble : bet ≤ s.max_bet)
    (hp : List.lookup pid s.players = some player)
    (hinv : invalid_action_for s pid a bet player)
    (h : handle_player_action s pid a = some (s', msgs)) :
    s' = s ∧ ∃ t, msgs = [ServerMessage.Error t] := by
  by_cases hc : current_player_id s = some pid
  case neg => exact hpa_not_turn s pid a s' msgs hc h
  rcases hinv with hc' | ⟨ha, hne⟩ | ⟨d, ha, hd⟩ | ⟨d, ha, hok, hmb, hbb, hst⟩ |
    ⟨d, ha, hok, hmb, hbad⟩
  · exact absurd hc hc'
  · subst ha
    have hblk : applyActionBlock s pid idx bet (s.max_bet - bet) player .Check =
        some (.inl ("当前有人下注 " ++ toString (s.max_bet - bet) ++ "，你至少要下注和他相等")) := by
      simp only [applyActionBlock]
      rw [if_pos hne]
      rfl
    rw [hpa_error_path s pid _ idx bet player _ hc hidx hbet hble hp hblk] at h
    exact some_pair_error h
  · subst ha
    have hblk : applyActionBlock s pid idx bet (s.max_bet - bet) player (.BetOrRaise d) =
        some (.inl ("你只能下注你剩余的筹码 " ++ toString player.stack ++ " 或更少")) := by
      simp only [applyActionBlock]
      rw [if_pos hd]
      rfl
    rw [hpa_error_path s pid _ idx bet player _ hc hidx hbet hble hp hblk] at h
    exact some_pair_error h
  · subst ha
    have hblk : applyActionBlock s pid idx bet (s.max_bet - bet) player (.BetOrRaise d) =
        some (.inl ("你只能下注大盲注 " ++ toString s.big_blind ++ " 或更多")) := by
      simp only [applyActionBlock]
      rw [if_neg hok, if_pos hmb, if_pos ⟨hbb, hst⟩]
      rfl
    rw [hpa_error_path s pid _ idx bet player _ hc hidx hbet hble hp hblk] at h
    exact some_pair_error h
  · subst ha
    have hblk : applyActionBlock s pid idx bet (s.max_bet - bet) player (.BetOrRaise d) =
        some (.inl ("你只能加注 " ++ toString (s.max_bet - bet + s.last_raise_amount) ++ " 或更多")) := by
      simp only [applyActionBlock]
      rw [if_neg hok, if_neg hmb]
      by_cases h5a : bet + d ≤ s.max_bet
      · rw [if_pos h5a]
        rfl
      · rw [if_neg h5a]
        rcases hbad with h5a' | ⟨h5b1, h5b2⟩
        · exact absurd h5a' h5a
        · rw [if_pos ⟨h5b1, h5b2⟩]
          rfl
    rw [hpa_error_path s pid _ idx bet player _ hc hidx hbet hble hp hblk] at h
    exact some_pair_error h

/-- C6 (failing evaluation): chip conservation is violated on a reachable
action sequence.  In flopLeakState the table holds 2200 chips; after the
bet-raise-call-fold sequence of leakRun the showdown completes with only
2070 chips left: the folded player 0's commitment above the highest
called level (330 − 200 = 130 chips) forms a pot tier whose eligible-
winner set is empty, so distribute_pots (logic.rs lines 767-777) pays it
to nobody and then zeroes the pot. -/
theorem handle_player_action_destroys_chips :
    totalChips flopLeakState = 2200 ∧
    leakRun.map totalChips = some 2070 :=
  ⟨rfl, by rfl⟩

theorem handle_player_action_rejects_invalid_witness :
    invalid_action_for underMinAllInState 0 .Check 180 (mkP 0 820 .Playing) ∧
    (underMinAllInState = underMinAllInState ∧
      ∃ t, [ServerMessage.Error "当前不该你行动"] = [ServerMessage.Error t]) :=
  ⟨Or.inl (by decide),
   handle_player_action_rejects_invalid underMinAllInState 0 .Check 0 180
     (mkP 0 820 .Playing) underMinAllInState [ServerMessage.Error "当前不该你行动"]
     (by decide) (by decide) (by decide) (by decide) (Or.inl (by decide)) (by rfl)⟩

/-- C9: when fewer than 2 of the seated players remain eligible after the
pre-hand coercion (not SittingOut, positive stack), start_new_hand sets
the phase to WaitingForPlayers and returns an empty event list. -/
theorem start_new_hand_too_few_waits (s : GameState) (shuffled : List Card)
    (h : (participants_of (coerce_sitting_out s)).length < 2) :
    ∃ s', start_new_hand s shuffled = some (s', []) ∧
      s'.phase = .WaitingForPlayers := by
  simp only [start_new_hand]
  rw [if_pos h]
  exact ⟨_, rfl, rfl⟩

theorem start_new_hand_too_few_waits_witness :
    (participants_of (coerce_sitting_out (roomWith [1000]))).length < 2 ∧
    (∃ s', start_new_hand (roomWith [1000]) create_deck = some (s', []) ∧
      s'.phase = .WaitingForPlayers) :=
  ⟨by decide, start_new_hand_too_few_waits (roomWith [1000]) create_deck (by decide)⟩

/-- C4 (failing evaluation): a hand started with three chip-holding
participants panics.  start_new_hand passes the card count 2*3+5 = 11 to
generate_random_hand as the player count (logic.rs lines 128-129), and its
assert 2..=10 fires, so no hand with three or more players can be dealt. -/
theorem start_new_hand_three_players_panics :
    start_new_hand (roomWith [1000, 1000, 1000]) create_deck = none := by
  rfl

/-- C5 (failing evaluation): with four participants, start_new_hand panics
inside generate_random_hand (player-count assert receives 2*4+5 = 13)
before any blind is posted or event emitted, so the claimed blind
positions and event order are unreachable for multi-way hands. -/
theorem start_new_hand_four_players_panics :
    start_new_hand (roomWith [1000, 1000, 1000, 1000]) create_deck = none := by
  rfl

/-- C3 (failing evaluation): player 2 goes all-in for a raise increment of
20 < last_raise_amount = 120.  The action is accepted (no Error event) and
last_raise_amount is not updated, but the player_has_acted flags of
players 0 and 1 — who had already acted and matched the prior max_bet 180
— are reset to false: the code re-opens action, contradicting the claim. -/
theorem under_min_all_in_reopens_action :
    (handle_player_action underMinAllInState 2 (.BetOrRaise 200)).map
      (fun r => (r.1.last_raise_amount, r.1.max_bet, r.1.player_has_acted,
        r.2.any (fun m => match m with | .Error _ => true | _ => false))) =
    some (120, 200, [false, false, true], false) := by
  rfl

/-- C10 (counterexample): an input made of five copies of the ace of
spades contains duplicates, yet find_best_hand does not fail: it returns
a (nonsensical) Flush.  Duplicates are not detected at all. -/
theorem find_best_hand_accepts_duplicates :
    ¬ dupFive.Nodup ∧
    find_best_hand dupFive = some (.Flush .Ace .Ace .Ace .Ace .Ace) :=
  ⟨by decide, by rfl⟩

/-- C10 (amended): find_best_hand fails (assert panic, modelled as none)
exactly on inputs with fewer than 5 or more than 7 cards; duplicate cards
are not rejected. -/
theorem find_best_hand_size_check (cards : List Card)
    (h : cards.length < 5 ∨ 7 < cards.length) :
    find_best_hand cards = none := by
  unfold find_best_hand
  have : ¬ (5 ≤ cards.length ∧ cards.length ≤ 7) := by omega
  simp [this]

theorem find_best_hand_size_check_witness :
    (([] : List Card).length < 5 ∨ 7 < ([] : List Card).length) ∧
    find_best_hand [] = none :=
  ⟨Or.inl (by decide), find_best_hand_size_check [] (Or.inl (by decide))⟩


lemma optFilter_mem_iff {α : Type _} (f : α → Option Bool) :
    ∀ (l : List α) (r : List α), optFilter f l = some r →
      ∀ x, x ∈ r ↔ x ∈ l ∧ f x = some true := by
  intro l
  induction l with
  | nil =>
    intro r h x
    simp only [optFilter] at h
    cases Option.some.inj h
    simp
  | cons y ys ih =>
    intro r h x
    simp only [optFilter, Option.bind_eq_bind, Option.bind_eq_some] at h
    obtain ⟨b, hb, rest, hrest, hpure⟩ := h
    cases Option.some.inj hpure
    cases b with
    | true =>
      rw [if_pos rfl]
      constructor
      · intro hx
        rcases List.mem_cons.mp hx with rfl | hx'
        · exact ⟨List.mem_cons_self _ _, hb⟩
        · have := (ih rest hrest x).mp hx'
          exact ⟨List.mem_cons_of_mem _ this.1, this.2⟩
      · rintro ⟨hmem, hfx⟩
        rcases List.mem_cons.mp hmem with rfl | hmem'
        · exact List.mem_cons_self _ _
        · exact List.mem_cons_of_mem _ ((ih rest hrest x).mpr ⟨hmem', hfx⟩)

    | false =>
      rw [if_neg Bool.false_ne_true]
      constructor
      · intro hx
        have := (ih rest hrest x).mp hx
        exact ⟨List.mem_cons_of_mem _ this.1, this.2⟩
      · rintro ⟨hmem, hfx⟩
        rcases List.mem_cons.mp hmem with rfl | hmem'
        · rw [hb] at hfx
          exact absurd (Option.some.inj hfx) (by simp)
        · exact (ih rest hrest x).mpr ⟨hmem', hfx⟩

lemma mapM_some_get? {α β : Type _} (f : α → Option β) :
    ∀ (l : List α) (r : List β), l.mapM f = some r →
      ∀ (i : Nat) (a : α), l.get? i = some a →
        ∃ b, f a = some b ∧ r.get? i = some b := by
  intro l
  induction l with
  | nil =>
    intro r _ i a ha
    simp at ha
  | cons x xs ih =>
    intro r h i a ha
    rw [List.mapM_cons] at h
    simp only [Option.bind_eq_bind, Option.bind_eq_some] at h
    obtain ⟨b, hb, r', hr', hpure⟩ := h
    have hr : r = b :: r' := (Option.some.inj hpure).symm
    subst hr
    cases i with
    | zero =>
      cases Option.some.inj ha
      exact ⟨b, hb, rfl⟩
    | succ i =>
      exact ih r' hr' i a ha

lemma mapM_some_length {α β : Type _} (f : α → Option β) :
    ∀ (l : List α) (r : List β), l.mapM f = some r → r.length = l.length := by
  intro l
  induction l with
  | nil =>
    intro r h
    rw [List.mapM_nil] at h
    cases Option.some.inj h
    rfl
  | cons x xs ih =>
    intro r h
    rw [List.mapM_cons] at h
    simp only [Option.bind_eq_bind, Option.bind_eq_some] at h
    obtain ⟨b, _, r', hr', hpure⟩ := h
    cases Option.some.inj hpure
    simp [ih r' hr']

/-- C8 (amended): for_client never includes the deck, always keeps the
recipient's own hole cards, hides every other player's hole cards outside
Showdown, and during Showdown keeps exactly the hole cards of the hand
players whose state is Playing or AllIn (get_players_in_hand), not of
every non-folded hand player. -/
theorem for_client_view (s : GameState) (cid : PlayerId) (v : GameState)
    (h : for_client s cid = some v) :
    v.deck = [] ∧
    (∀ i, List.lookup cid s.player_indices = some i → i < s.player_cards.length →
      v.player_cards.get? i = s.player_cards.get? i) ∧
    (s.phase ≠ .Showdown → ∀ i, i < s.player_cards.length →
      some i ≠ List.lookup cid s.player_indices →
      v.player_cards.get? i = some (none, none)) ∧
    (s.phase = .Showdown → ∀ i pid p, s.hand_player_order.get? i = some pid →
      List.lookup pid s.players = some p →
      some i ≠ List.lookup cid s.player_indices → i < s.player_cards.length →
      v.player_cards.get? i =
        (if p.state = .Playing ∨ p.state = .AllIn then s.player_cards.get? i
         else some ((none : Option Card), (none : Option Card)))) := by
  unfold for_client at h
  by_cases hph : s.phase = .Showdown
  · simp only [if_pos hph] at h
    simp only [Option.bind_eq_bind, Option.bind_eq_some] at h
    obtain ⟨inH, hin, nc, hnc, hpure⟩ := h
    have hv : v = { s with deck := [], player_cards := nc } := (Option.some.inj hpure).symm
    subst hv
    have hpt : ∀ (i : Nat) (a : Option Card × Option Card),
        s.player_cards.get? i = some a →
        ∃ pid, s.hand_player_order.get? i = some pid ∧
          nc.get? i = some (if ¬ (pid ∈ inH) ∧ some i ≠ List.lookup cid s.player_indices
            then ((none : Option Card), (none : Option Card)) else a) := by
      intro i a ha
      have hen : s.player_cards.enum.get? i = some (i, a) := by
        rw [List.get?_enum, ha]
        rfl
      obtain ⟨b, hfb, hnci⟩ := mapM_some_get? _ _ _ hnc i (i, a) hen
      simp only [Option.bind_eq_bind, Option.bind_eq_some] at hfb
      obtain ⟨pid, hpid, hpure2⟩ := hfb
      refine ⟨pid, hpid, ?_⟩
      rw [hnci, ← Option.some.inj hpure2]
    refine ⟨rfl, ?_, fun hne => absurd hph hne, ?_⟩
    · intro i hidx hlen
      obtain ⟨a, ha⟩ : ∃ a, s.player_cards.get? i = some a :=
        ⟨_, List.get?_eq_get hlen⟩
      obtain ⟨pid, _, hval⟩ := hpt i a ha
      show nc.get? i = s.player_cards.get? i
      rw [hval, ha, hidx]
      simp
    · intro _ i pid p hpid hp hne hlen
      obtain ⟨a, ha⟩ : ∃ a, s.player_cards.get? i = some a :=
        ⟨_, List.get?_eq_get hlen⟩
      obtain ⟨pid', hpid', hval⟩ := hpt i a ha
      have hpe : pid' = pid := by
        rw [hpid'] at hpid
        exact Option.some.inj hpid
      rw [hpe] at hval hpid'
      have hmem := optFilter_mem_iff _ _ _ hin pid
      have hmemo : pid ∈ s.hand_player_order := List.get?_mem hpid'
      show nc.get? i = _
      rw [hval]
      by_cases hstate : p.state = .Playing ∨ p.state = .AllIn
      · have hmm : pid ∈ inH := by
          refine hmem.mpr ⟨hmemo, ?_⟩
          rw [hp]
          rcases hstate with h1 | h1 <;> simp [h1]
        rw [if_pos hstate, ha]
        simp [hmm]
      · have hmm : ¬ pid ∈ inH := by
          intro hmm
          obtain ⟨_, hf⟩ := hmem.mp hmm
          rw [hp] at hf
          have hor := Option.some.inj hf
          exact hstate (by simpa using hor)
        rw [if_neg hstate]
        simp [hmm, hne]
  · simp only [if_neg hph] at h
    have hv : v = ({ s with
        deck := [],
        player_cards := s.player_cards.enum.map
          (fun ic => if some ic.1 ≠ List.lookup cid s.player_indices
            then (none, none) else ic.2) } : GameState) := (Option.some.inj h).symm
    subst hv
    refine ⟨rfl, ?_, ?_, fun hs => absurd hs hph⟩
    · intro i hidx hlen
      obtain ⟨a, ha⟩ : ∃ a, s.player_cards.get? i = some a :=
        ⟨_, List.get?_eq_get hlen⟩
      simp only [List.get?_map, List.get?_enum, ha]
      rw [hidx]
      simp
    · intro _ i hlen hne
      obtain ⟨a, ha⟩ : ∃ a, s.player_cards.get? i = some a :=
        ⟨_, List.get?_eq_get hlen⟩
      simp only [List.get?_map, List.get?_enum, ha]
      simp [hne]


/-- C8 (counterexample): at Showdown, hand player 1 is Offline — not
folded — with dealt hole cards, yet the projection for recipient 0 blanks
player 1's cards, because the code keeps only the cards of players whose
state is Playing or AllIn. -/
theorem for_client_hides_unfolded_offline :
    showdownOfflineState.phase = .Showdown ∧
    showdownOfflineState.hand_player_order.get? 1 = some 1 ∧
    (List.lookup 1 showdownOfflineState.players).map Player.state = some .Offline ∧
    showdownOfflineState.player_cards.get? 1 =
      some (some (Card.mk .Queen .Heart), some (Card.mk .Jack .Heart)) ∧
    (for_client showdownOfflineState 0).map (fun v => v.player_cards.get? 1) =
      some (some (none, none)) :=
  ⟨rfl, rfl, rfl, rfl, rfl⟩

theorem for_client_view_witness :
    ((for_client showdownOfflineState 0).getD showdownOfflineState).deck = [] :=
  (for_client_view showdownOfflineState 0
    ((for_client showdownOfflineState 0).getD showdownOfflineState) rfl).1

-- --- Hand evaluation order theory and totality (for C2) ---

lemma Rank.val_le (r : Rank) : r.val ≤ 14 := by cases r <;> decide

lemma Rank.val_inj : ∀ (r s : Rank), r.val = s.val → r = s := by decide

lemma fieldsKey_lt : ∀ l : List Rank, fieldsKey l < 15 ^ l.length := by
  intro l
  induction l with
  | nil => decide
  | cons r rs ih =>
    have h1 := Rank.val_le r
    have h2 : r.val * 15 ^ rs.length ≤ 14 * 15 ^ rs.length :=
      Nat.mul_le_mul_right _ h1
    have h3 : 15 ^ (rs.length + 1) = 15 * 15 ^ rs.length := by ring
    simp only [fieldsKey, List.length_cons, h3]
    have h4 : 15 * 15 ^ rs.length = 14 * 15 ^ rs.length + 15 ^ rs.length := by ring
    omega

lemma compare_add_left (k a b : Nat) : compare (k + a) (k + b) = compare a b := by
  rcases Nat.lt_trichotomy a b with h | h | h
  · rw [Nat.compare_eq_lt.mpr h, Nat.compare_eq_lt.mpr (by omega)]
  · subst h
    rw [Nat.compare_eq_eq.mpr rfl, Nat.compare_eq_eq.mpr rfl]
  · rw [Nat.compare_eq_gt.mpr h, Nat.compare_eq_gt.mpr (by omega)]

lemma cmpRankList_eq_compare : ∀ (l1 l2 : List Rank), l1.length = l2.length →
    cmpRankList l1 l2 = compare (fieldsKey l1) (fieldsKey l2) := by
  intro l1
  induction l1 with
  | nil =>
    intro l2 h
    cases l2 with
    | nil => decide
    | cons b bs => simp at h
  | cons a as ih =>
    intro l2 h
    cases l2 with
    | nil => simp at h
    | cons b bs =>
      have hlen : as.length = bs.length := by simpa using h
      have hK1 := fieldsKey_lt as
      have hK2 := fieldsKey_lt bs
      rw [hlen] at hK1
      simp only [cmpRankList, fieldsKey, hlen]
      rcases Nat.lt_trichotomy a.val b.val with hv | hv | hv
      · rw [Nat.compare_eq_lt.mpr hv]
        have hmul : (a.val + 1) * 15 ^ bs.length ≤ b.val * 15 ^ bs.length :=
          Nat.mul_le_mul_right _ hv
        have hsucc : (a.val + 1) * 15 ^ bs.length = a.val * 15 ^ bs.length + 15 ^ bs.length := by
          ring
        rw [(Nat.compare_eq_lt).mpr (by omega)]
        rfl
      · rw [hv, Nat.compare_eq_eq.mpr rfl]
        rw [compare_add_left]
        rw [ih bs hlen]
        rfl
      · rw [Nat.compare_eq_gt.mpr hv]
        have hmul : (b.val + 1) * 15 ^ bs.length ≤ a.val * 15 ^ bs.length :=
          Nat.mul_le_mul_right _ hv
        have hsucc : (b.val + 1) * 15 ^ bs.length = b.val * 15 ^ bs.length + 15 ^ bs.length := by
          ring
        rw [(Nat.compare_eq_gt).mpr (by omega)]
        rfl

lemma fieldRanks_length_le (x : HandRank) : x.fieldRanks.length ≤ 5 := by
  cases x <;> simp [HandRank.fieldRanks]

lemma length_eq_of_ctorIdx_eq : ∀ (x y : HandRank), x.ctorIdx = y.ctorIdx →
    x.fieldRanks.length = y.fieldRanks.length := by
  intro x y
  cases x <;> cases y <;> simp [HandRank.ctorIdx, HandRank.fieldRanks]

lemma cmp_eq_compare_key (x y : HandRank) :
    HandRank.cmp x y = compare x.key y.key := by
  unfold HandRank.cmp HandRank.key
  have hx := fieldsKey_lt x.fieldRanks
  have hy := fieldsKey_lt y.fieldRanks
  have hx5 : 15 ^ x.fieldRanks.length ≤ 15 ^ 5 :=
    Nat.pow_le_pow_right (by omega) (fieldRanks_length_le x)
  have hy5 : 15 ^ y.fieldRanks.length ≤ 15 ^ 5 :=
    Nat.pow_le_pow_right (by omega) (fieldRanks_length_le y)
  rcases Nat.lt_trichotomy x.ctorIdx y.ctorIdx with hc | hc | hc
  · rw [Nat.compare_eq_lt.mpr hc]
    have hmul : (x.ctorIdx + 1) * 15 ^ 5 ≤ y.ctorIdx * 15 ^ 5 :=
      Nat.mul_le_mul_right _ hc
    have hsucc : (x.ctorIdx + 1) * 15 ^ 5 = x.ctorIdx * 15 ^ 5 + 15 ^ 5 := by ring
    rw [Nat.compare_eq_lt.mpr (by omega)]
    rfl
  · rw [hc, Nat.compare_eq_eq.mpr rfl, compare_add_left,
      cmpRankList_eq_compare _ _ (length_eq_of_ctorIdx_eq x y hc)]
    rfl
  · rw [Nat.compare_eq_gt.mpr hc]
    have hmul : (y.ctorIdx + 1) * 15 ^ 5 ≤ x.ctorIdx * 15 ^ 5 :=
      Nat.mul_le_mul_right _ hc
    have hsucc : (y.ctorIdx + 1) * 15 ^ 5 = y.ctorIdx * 15 ^ 5 + 15 ^ 5 := by ring
    rw [Nat.compare_eq_gt.mpr (by omega)]
    rfl

lemma HandRank.le_iff_key (x y : HandRank) : x.le y ↔ x.key ≤ y.key := by
  unfold HandRank.le
  rw [cmp_eq_compare_key]
  constructor
  · intro h
    by_contra hlt
    exact h (Nat.compare_eq_gt.mpr (by omega))
  · intro h hgt
    have := Nat.compare_eq_gt.mp hgt
    omega

lemma HandRank.cmp_gt_iff (x y : HandRank) : x.cmp y = .gt ↔ y.key < x.key := by
  rw [cmp_eq_compare_key]
  exact Nat.compare_eq_gt



lemma cmpRankList_eq_iff : ∀ (l1 l2 : List Rank), l1.length = l2.length →
    (cmpRankList l1 l2 = .eq ↔ l1 = l2) := by
  intro l1
  induction l1 with
  | nil =>
    intro l2 h
    cases l2 with
    | nil => simp [cmpRankList]
    | cons b bs => simp at h
  | cons a as ih =>
    intro l2 h
    cases l2 with
    | nil => simp at h
    | cons b bs =>
      have hlen : as.length = bs.length := by simpa using h
      simp only [cmpRankList]
      constructor
      · intro he
        have hfst : compare a.val b.val = .eq := by
          by_contra hne
          cases hcv : compare a.val b.val with
          | eq => exact hne hcv
          | lt => rw [hcv] at he; simp [Ordering.then] at he
          | gt => rw [hcv] at he; simp [Ordering.then] at he
        have hab : a = b := Rank.val_inj _ _ (Nat.compare_eq_eq.mp hfst)
        rw [hfst] at he
        have : as = bs := (ih bs hlen).mp (by simpa [Ordering.then] using he)
        rw [hab, this]
      · intro he
        injection he with h1 h2
        subst h1
        subst h2
        rw [Nat.compare_eq_eq.mpr rfl]
        simpa [Ordering.then] using (ih as rfl).mpr rfl

lemma handRank_ext : ∀ (x y : HandRank), x.ctorIdx = y.ctorIdx →
    x.fieldRanks = y.fieldRanks → x = y := by
  intro x y
  cases x <;> cases y <;> simp [HandRank.ctorIdx, HandRank.fieldRanks] <;> intro h <;> simp_all

lemma cmp_eq_iff_eq (x y : HandRank) : x.cmp y = .eq ↔ x = y := by
  constructor
  · intro h
    unfold HandRank.cmp at h
    have hfst : compare x.ctorIdx y.ctorIdx = .eq := by
      by_contra hne
      cases hcv : compare x.ctorIdx y.ctorIdx with
      | eq => exact hne hcv
      | lt => rw [hcv] at h; simp [Ordering.then] at h
      | gt => rw [hcv] at h; simp [Ordering.then] at h
    have hc : x.ctorIdx = y.ctorIdx := Nat.compare_eq_eq.mp hfst
    rw [hfst] at h
    have hsnd : cmpRankList x.fieldRanks y.fieldRanks = .eq := by
      simpa [Ordering.then] using h
    exact handRank_ext x y hc
      ((cmpRankList_eq_iff _ _ (length_eq_of_ctorIdx_eq x y hc)).mp hsnd)
  · rintro rfl
    unfold HandRank.cmp
    rw [Nat.compare_eq_eq.mpr rfl]
    simpa [Ordering.then] using (cmpRankList_eq_iff x.fieldRanks x.fieldRanks rfl).mpr rfl

lemma key_inj (x y : HandRank) (h : x.key = y.key) : x = y :=
  (cmp_eq_iff_eq x y).mp (by rw [cmp_eq_compare_key, Nat.compare_eq_eq.mpr h])

lemma maxHandRank_go : ∀ (l : List HandRank) (m0 : HandRank),
    ∃ m, (l.foldl (fun acc x => match acc with
      | none => some x
      | some mm => if mm.cmp x = .gt then some mm else some x) (some m0)) = some m ∧
      (m = m0 ∨ m ∈ l) ∧ m0.le m ∧ ∀ x ∈ l, x.le m := by
  intro l
  induction l with
  | nil =>
    intro m0
    exact ⟨m0, rfl, Or.inl rfl, (HandRank.le_iff_key m0 m0).mpr le_rfl, by simp⟩
  | cons y ys ih =>
    intro m0
    by_cases hc : m0.cmp y = .gt
    · obtain ⟨m, hm, hmem, hle, hall⟩ := ih m0
      have hy : y.key < m0.key := (HandRank.cmp_gt_iff m0 y).mp hc
      refine ⟨m, by simpa [hc] using hm, ?_, hle, ?_⟩
      · rcases hmem with rfl | hmm
        · exact Or.inl rfl
        · exact Or.inr (List.mem_cons_of_mem _ hmm)
      · intro x hx
        rcases List.mem_cons.mp hx with rfl | hxx
        · rw [HandRank.le_iff_key]
          have := (HandRank.le_iff_key m0 m).mp hle
          omega
        · exact hall x hxx
    · obtain ⟨m, hm, hmem, hle, hall⟩ := ih y
      have hy : ¬ y.key < m0.key := fun hh => hc ((HandRank.cmp_gt_iff m0 y).mpr hh)
      refine ⟨m, by simpa [hc] using hm, ?_, ?_, ?_⟩
      · rcases hmem with rfl | hmm
        · exact Or.inr (List.mem_cons_self _ _)
        · exact Or.inr (List.mem_cons_of_mem _ hmm)
      · rw [HandRank.le_iff_key]
        have := (HandRank.le_iff_key y m).mp hle
        omega
      · intro x hx
        rcases List.mem_cons.mp hx with rfl | hxx
        · exact hle
        · exact hall x hxx

lemma maxHandRank_spec (l : List HandRank) (hne : l ≠ []) :
    ∃ m, maxHandRank l = some m ∧ m ∈ l ∧ ∀ x ∈ l, x.le m := by
  cases l with
  | nil => exact absurd rfl hne
  | cons y ys =>
    obtain ⟨m, hm, hmem, hle, hall⟩ := maxHandRank_go ys y
    refine ⟨m, ?_, ?_, ?_⟩
    · unfold maxHandRank
      simpa using hm
    · rcases hmem with rfl | hmm
      · exact List.mem_cons_self _ _
      · exact List.mem_cons_of_mem _ hmm
    · intro x hx
      rcases List.mem_cons.mp hx with rfl | hxx
      · exact hle
      · exact hall x hxx

lemma mem_get_combinations {α : Type _} :
    ∀ (l : List α) (k : Nat) (c : List α),
      c ∈ get_combinations l k ↔ c.Sublist l ∧ c.length = k := by
  intro l
  induction l with
  | nil =>
    intro k c
    cases k with
    | zero =>
      simp only [get_combinations, List.mem_singleton]
      constructor
      · rintro rfl
        exact ⟨List.nil_sublist _, rfl⟩
      · rintro ⟨hs, hl⟩
        exact List.length_eq_zero.mp hl
    | succ k =>
      simp only [get_combinations, List.not_mem_nil, false_iff]
      rintro ⟨hs, hl⟩
      have h0 := hs.length_le
      simp only [List.length_nil, Nat.le_zero] at h0
      omega
  | cons a rest ih =>
    intro k c
    cases k with
    | zero =>
      simp only [get_combinations, List.mem_singleton]
      constructor
      · rintro rfl
        exact ⟨List.nil_sublist _, rfl⟩
      · rintro ⟨hs, hl⟩
        exact List.length_eq_zero.mp hl
    | succ k =>
      simp only [get_combinations]
      by_cases hlen : rest.length + 1 < k + 1
      · rw [if_pos hlen]
        simp only [List.not_mem_nil, false_iff]
        rintro ⟨hs, hl⟩
        have := hs.length_le
        simp only [List.length_cons] at this
        omega
      · rw [if_neg hlen]
        constructor
        · intro hmem
          rcases List.mem_append.mp hmem with hm | hm
          · obtain ⟨c', hc', rfl⟩ := List.mem_map.mp hm
            obtain ⟨hs, hl⟩ := (ih k c').mp hc'
            exact ⟨List.cons_sublist_cons.mpr hs, by simp [hl]⟩
          · by_cases hgt : rest.length + 1 > k + 1
            · rw [if_pos hgt] at hm
              obtain ⟨hs, hl⟩ := (ih (k + 1) c).mp hm
              exact ⟨hs.cons _, hl⟩
            · rw [if_neg hgt] at hm
              exact absurd hm (List.not_mem_nil c)
        · rintro ⟨hs, hl⟩
          rcases List.sublist_cons_iff.mp hs with hsr | ⟨c', rfl, hc'⟩
          · -- c is a sublist of rest of length k+1
            have hkr : k + 1 ≤ rest.length := by
              have := hsr.length_le
              omega
            have hgt : rest.length + 1 > k + 1 := by omega
            refine List.mem_append.mpr (Or.inr ?_)
            rw [if_pos hgt]
            exact (ih (k + 1) c).mpr ⟨hsr, hl⟩
          · refine List.mem_append.mpr (Or.inl ?_)
            exact List.mem_map.mpr ⟨c', (ih k c').mpr ⟨hc', by simpa using hl⟩, rfl⟩

lemma countDesc_fst_le {a b : Nat × Rank} (h : countDesc a b) : b.1 ≤ a.1 := by
  rcases h with h | ⟨h, _⟩
  · omega
  · omega

lemma ite_some {α : Type _} (c : Prop) [Decidable c] (x y : Option α)
    (hx : x.isSome) (hy : y.isSome) : ∃ r, (if c then x else y) = some r := by
  split
  · exact ⟨_, (Option.isSome_iff_exists.mp hx).choose_spec⟩
  · exact ⟨_, (Option.isSome_iff_exists.mp hy).choose_spec⟩

lemma evaluate_succeeds (hand : List Card) (hlen : hand.length = 5) :
    ∃ r, evaluate_5_card_hand hand = some r := by
  simp only [evaluate_5_card_hand]
  rw [hlen]
  simp only [guard, if_pos rfl, Option.bind_eq_bind, Option.some_bind]
  set L := List.insertionSort cardDesc hand with hL
  have hLlen : L.length = 5 := by
    rw [hL, List.Perm.length_eq (List.perm_insertionSort cardDesc hand), hlen]
  set ranks := L.map Card.rank with hranks
  have hrlen : ranks.length = 5 := by rw [hranks, List.length_map, hLlen]
  obtain ⟨r0, hr0⟩ : ∃ r0, ranks.get? 0 = some r0 := ⟨_, List.get?_eq_get (by omega)⟩
  rw [hr0]
  simp only [Option.some_bind]
  by_cases hsf : ((descByOne ranks || ranks == wheelRanks) && allSuitsEq L) = true
  · rw [if_pos hsf]
    by_cases hhc : (if ranks = wheelRanks then Rank.Five else r0) = .Ace
    · exact ⟨_, by rw [if_pos hhc]; rfl⟩
    · exact ⟨_, by rw [if_neg hhc]; rfl⟩
  · rw [if_neg hsf]
    have hsum : ((List.insertionSort countDesc
        (ranks.dedup.map (fun r => (ranks.count r, r)))).map Prod.fst).sum = 5 := by
      have hperm := List.perm_insertionSort countDesc
        (ranks.dedup.map (fun r => (ranks.count r, r)))
      rw [List.Perm.sum_eq (hperm.map Prod.fst)]
      rw [List.map_map]
      have : (Prod.fst ∘ fun r => (ranks.count r, r)) = fun r => ranks.count r := rfl
      rw [this]
      rw [← hrlen]
      exact List.sum_map_count_dedup_eq_length ranks
    have hpos : ∀ p ∈ List.insertionSort countDesc
        (ranks.dedup.map (fun r => (ranks.count r, r))), 1 ≤ p.1 := by
      intro p hp
      have hp2 := (List.perm_insertionSort countDesc _).mem_iff.mp hp
      obtain ⟨r, hr, rfl⟩ := List.mem_map.mp hp2
      have : r ∈ ranks := List.mem_dedup.mp hr
      simpa using List.count_pos_iff.mpr this
    have hsorted : List.Sorted countDesc (List.insertionSort countDesc
        (ranks.dedup.map (fun r => (ranks.count r, r)))) :=
      List.sorted_insertionSort countDesc _
    generalize hSC : List.insertionSort countDesc
        (ranks.dedup.map (fun r => (ranks.count r, r))) = SC at hsum hpos hsorted ⊢
    clear hSC
    -- ranks indexing facts used by the default branch
    obtain ⟨r1, hr1⟩ : ∃ x, ranks.get? 1 = some x := ⟨_, List.get?_eq_get (by omega)⟩
    obtain ⟨r2, hr2⟩ : ∃ x, ranks.get? 2 = some x := ⟨_, List.get?_eq_get (by omega)⟩
    obtain ⟨r3, hr3⟩ : ∃ x, ranks.get? 3 = some x := ⟨_, List.get?_eq_get (by omega)⟩
    obtain ⟨r4, hr4⟩ : ∃ x, ranks.get? 4 = some x := ⟨_, List.get?_eq_get (by omega)⟩
    have hdefault : ∀ c0 : Nat × Rank, ∃ r,
        ((if allSuitsEq L = true then
            (ranks.get? 1).bind fun r1 =>
            (ranks.get? 2).bind fun r2 =>
            (ranks.get? 3).bind fun r3 =>
            (ranks.get? 4).bind fun r4 =>
              pure (HandRank.Flush r0 r1 r2 r3 r4)
          else if (descByOne ranks || ranks == wheelRanks) = true then
            pure (HandRank.Straight (if ranks = wheelRanks then Rank.Five else r0))
          else
            (ranks.get? 1).bind fun r1 =>
            (ranks.get? 2).bind fun r2 =>
            (ranks.get? 3).bind fun r3 =>
            (ranks.get? 4).bind fun r4 =>
              pure (HandRank.HighCard r0 r1 r2 r3 r4)) : Option HandRank) = some r := by
      intro c0
      by_cases hfl : allSuitsEq L = true
      · rw [if_pos hfl, hr1, hr2, hr3, hr4]
        exact ⟨_, rfl⟩
      · rw [if_neg hfl]
        by_cases hst : (descByOne ranks || ranks == wheelRanks) = true
        · rw [if_pos hst]
          exact ⟨_, rfl⟩
        · rw [if_neg hst, hr1, hr2, hr3, hr4]
          exact ⟨_, rfl⟩
    rcases SC with _ | ⟨⟨n, ra⟩, tl0⟩
    · simp at hsum
    rcases tl0 with _ | ⟨⟨m, rb⟩, tl1⟩
    · have hn : n = 5 := by simpa using hsum
      subst hn
      exact hdefault (5, ra)
    rcases tl1 with _ | ⟨⟨p, rc⟩, tl2⟩
    · have hn1 : 1 ≤ n := hpos (n, ra) (by simp)
      have hm1 : 1 ≤ m := hpos (m, rb) (by simp)
      have hmn : m ≤ n := countDesc_fst_le
        ((List.sorted_cons.mp hsorted).1 (m, rb) (by simp))
      have hs : n + m = 5 := by simpa using hsum
      have hn4 : n ≤ 4 := by omega
      interval_cases n
      · exact absurd hs (by omega)
      · exact absurd hs (by omega)
      · have hm : m = 2 := by omega
        subst hm
        exact ⟨_, rfl⟩
      · exact ⟨_, rfl⟩
    rcases tl2 with _ | ⟨⟨q, rd⟩, tl3⟩
    · have hn1 : 1 ≤ n := hpos (n, ra) (by simp)
      have hm1 : 1 ≤ m := hpos (m, rb) (by simp)
      have hp1 : 1 ≤ p := hpos (p, rc) (by simp)
      have hmn : m ≤ n := countDesc_fst_le
        ((List.sorted_cons.mp hsorted).1 (m, rb) (by simp))
      have hpm : p ≤ m := countDesc_fst_le
        ((List.sorted_cons.mp (List.sorted_cons.mp hsorted).2).1 (p, rc) (by simp))
      have hs : n + (m + p) = 5 := by simpa using hsum
      have hn3 : n ≤ 3 := by omega
      interval_cases n
      · exact absurd hs (by omega)
      · have hm : m = 2 := by omega
        subst hm
        exact ⟨_, rfl⟩
      · have hm : m = 1 := by omega
        subst hm
        exact ⟨_, rfl⟩
    rcases n with _ | _ | _ | _ | _ | n
    · exact hdefault (0, ra)
    · exact hdefault (1, ra)
    · exact ite_some _ _ _ rfl rfl
    · exact ite_some _ _ _ rfl rfl
    · exact ⟨_, rfl⟩
    · exact hdefault (n + 5, ra)


-- --- C2: best-hand search correctness ---

lemma mapM_isSome {α β : Type _} (f : α → Option β) :
    ∀ (l : List α), (∀ a ∈ l, ∃ b, f a = some b) → ∃ rs, l.mapM f = some rs := by
  intro l
  induction l with
  | nil => intro _; exact ⟨[], rfl⟩
  | cons x xs ih =>
    intro h
    obtain ⟨b, hb⟩ := h x (List.mem_cons_self _ _)
    obtain ⟨rs, hrs⟩ := ih (fun a ha => h a (List.mem_cons_of_mem _ ha))
    refine ⟨b :: rs, ?_⟩
    rw [List.mapM_cons]
    simp only [Option.bind_eq_bind, hb, Option.some_bind, hrs]
    rfl

lemma mapM_mem_exists {α β : Type _} (f : α → Option β) :
    ∀ (l : List α) (rs : List β), l.mapM f = some rs →
      ∀ b ∈ rs, ∃ a ∈ l, f a = some b := by
  intro l
  induction l with
  | nil =>
    intro rs h b hb
    rw [List.mapM_nil] at h
    cases Option.some.inj h
    simp at hb
  | cons x xs ih =>
    intro rs h b hb
    rw [List.mapM_cons] at h
    simp only [Option.bind_eq_bind, Option.bind_eq_some] at h
    obtain ⟨b0, hb0, rs', hrs', hpure⟩ := h
    cases Option.some.inj hpure
    rcases List.mem_cons.mp hb with rfl | hbt
    · exact ⟨x, List.mem_cons_self _ _, hb0⟩
    · obtain ⟨a, ha, hfa⟩ := ih rs' hrs' b hbt
      exact ⟨a, List.mem_cons_of_mem _ ha, hfa⟩

lemma mapM_exists_mem {α β : Type _} (f : α → Option β) :
    ∀ (l : List α) (rs : List β), l.mapM f = some rs →
      ∀ a ∈ l, ∃ b ∈ rs, f a = some b := by
  intro l
  induction l with
  | nil =>
    intro rs _ a ha
    simp at ha
  | cons x xs ih =>
    intro rs h a ha
    rw [List.mapM_cons] at h
    simp only [Option.bind_eq_bind, Option.bind_eq_some] at h
    obtain ⟨b0, hb0, rs', hrs', hpure⟩ := h
    cases Option.some.inj hpure
    rcases List.mem_cons.mp ha with rfl | hat
    · exact ⟨b0, List.mem_cons_self _ _, hb0⟩
    · obtain ⟨b, hb, hfb⟩ := ih rs' hrs' a hat
      exact ⟨b, List.mem_cons_of_mem _ hb, hfb⟩

lemma allSuitsEq_cons_iff : ∀ (l : List Card) (a : Card),
    allSuitsEq (a :: l) = true ↔ ∀ c ∈ l, c.suit = a.suit := by
  intro l
  induction l with
  | nil => intro a; simp [allSuitsEq]
  | cons b rest ih =>
    intro a
    simp only [allSuitsEq, Bool.and_eq_true, beq_iff_eq]
    rw [ih b]
    constructor
    · rintro ⟨hab, hrest⟩ c hc
      rcases List.mem_cons.mp hc with rfl | hcr
      · exact hab.symm
      · rw [hrest c hcr, hab]
    · intro h
      refine ⟨(h b (List.mem_cons_self _ _)).symm, fun c hc => ?_⟩
      rw [h c (List.mem_cons_of_mem _ hc), h b (List.mem_cons_self _ _)]

lemma allSuitsEq_iff : ∀ (l : List Card),
    allSuitsEq l = true ↔ ∀ a ∈ l, ∀ b ∈ l, a.suit = b.suit := by
  intro l
  cases l with
  | nil => simp [allSuitsEq]
  | cons a tl =>
    rw [allSuitsEq_cons_iff]
    constructor
    · intro h x hx y hy
      have hxa : x.suit = a.suit := by
        rcases List.mem_cons.mp hx with rfl | hxt
        · rfl
        · exact h x hxt
      have hya : y.suit = a.suit := by
        rcases List.mem_cons.mp hy with rfl | hyt
        · rfl
        · exact h y hyt
      rw [hxa, hya]
    · intro h c hc
      exact h c (List.mem_cons_of_mem _ hc) a (List.mem_cons_self _ _)

lemma sorted_ranks_of_perm (hand : List Card) (target : List Rank)
    (hp : (hand.map Card.rank).Perm target)
    (hs : List.Sorted (fun a b : Rank => b.val ≤ a.val) target) :
    (List.insertionSort cardDesc hand).map Card.rank = target := by
  have hperm : ((List.insertionSort cardDesc hand).map Card.rank).Perm target :=
    ((List.perm_insertionSort cardDesc hand).map Card.rank).trans hp
  have hsorted : List.Sorted (fun a b : Rank => b.val ≤ a.val)
      ((List.insertionSort cardDesc hand).map Card.rank) :=
    List.Pairwise.map Card.rank (fun a b (h : cardDesc a b) => h)
      (List.sorted_insertionSort cardDesc hand)
  exact @List.eq_of_perm_of_sorted _ _
    ⟨fun a b h1 h2 => Rank.val_inj a b (Nat.le_antisymm h2 h1)⟩
    _ _ hperm hsorted hs

lemma allSuitsEq_sort_iff (hand : List Card) :
    allSuitsEq (List.insertionSort cardDesc hand) = true ↔
      ∀ a ∈ hand, ∀ b ∈ hand, a.suit = b.suit := by
  rw [allSuitsEq_iff]
  have hm := fun x => (List.perm_insertionSort cardDesc hand).mem_iff (a := x)
  constructor
  · intro h a ha b hb
    exact h a (hm a |>.mpr ha) b (hm b |>.mpr hb)
  · intro h a ha b hb
    exact h a (hm a |>.mp ha) b (hm b |>.mp hb)

lemma eval_wheel (hand : List Card) (hlen : hand.length = 5)
    (hperm : (hand.map Card.rank).Perm wheelRanks) :
    ((∀ a ∈ hand, ∀ b ∈ hand, a.suit = b.suit) →
       evaluate_5_card_hand hand = some (.StraightFlush .Five)) ∧
    ((¬ ∀ a ∈ hand, ∀ b ∈ hand, a.suit = b.suit) →
       evaluate_5_card_hand hand = some (.Straight .Five)) := by
  have hr : (List.insertionSort cardDesc hand).map Card.rank = wheelRanks :=
    sorted_ranks_of_perm hand wheelRanks hperm (by decide)
  constructor
  · intro hsuits
    have hfl : allSuitsEq (List.insertionSort cardDesc hand) = true :=
      (allSuitsEq_sort_iff hand).mpr hsuits
    simp only [evaluate_5_card_hand]
    rw [hlen]
    simp only [guard, if_pos rfl, Option.bind_eq_bind, Option.some_bind]
    rw [hr, hfl]
    rfl
  · intro hsuits
    have hfl : allSuitsEq (List.insertionSort cardDesc hand) = false := by
      rcases hb : allSuitsEq (List.insertionSort cardDesc hand) with _ | _
      · rfl
      · exact absurd ((allSuitsEq_sort_iff hand).mp hb) hsuits
    simp only [evaluate_5_card_hand]
    rw [hlen]
    simp only [guard, if_pos rfl, Option.bind_eq_bind, Option.some_bind]
    rw [hr, hfl]
    rfl

lemma eval_royal (hand : List Card) (hlen : hand.length = 5)
    (hperm : (hand.map Card.rank).Perm [.Ace, .King, .Queen, .Jack, .Ten])
    (hsuits : ∀ a ∈ hand, ∀ b ∈ hand, a.suit = b.suit) :
    evaluate_5_card_hand hand = some .RoyalFlush := by
  have hr : (List.insertionSort cardDesc hand).map Card.rank =
      [.Ace, .King, .Queen, .Jack, .Ten] :=
    sorted_ranks_of_perm hand _ hperm (by decide)
  have hfl : allSuitsEq (List.insertionSort cardDesc hand) = true :=
    (allSuitsEq_sort_iff hand).mpr hsuits
  simp only [evaluate_5_card_hand]
  rw [hlen]
  simp only [guard, if_pos rfl, Option.bind_eq_bind, Option.some_bind]
  rw [hr, hfl]
  rfl

lemma find_best_hand_max (all : List Card)
    (hl : all.length = 6 ∨ all.length = 7) :
    ∃ r, find_best_hand all = some r ∧
      (∃ c, c.Sublist all ∧ c.length = 5 ∧ evaluate_5_card_hand c = some r) ∧
      (∀ c, c.Sublist all → c.length = 5 →
        ∀ rc, evaluate_5_card_hand c = some rc → rc.le r) := by
  have hg : 5 ≤ all.length ∧ all.length ≤ 7 := by rcases hl with h | h <;> omega
  have h5 : ¬ all.length = 5 := by rcases hl with h | h <;> omega
  have hev : ∀ c ∈ get_combinations all 5, ∃ b, evaluate_5_card_hand c = some b := by
    intro c hc
    exact evaluate_succeeds c ((mem_get_combinations all 5 c).mp hc).2
  obtain ⟨rs, hrs⟩ := mapM_isSome _ _ hev
  have htake : all.take 5 ∈ get_combinations all 5 := by
    refine (mem_get_combinations all 5 _).mpr ⟨List.take_sublist 5 all, ?_⟩
    rw [List.length_take]
    omega
  have hcne : get_combinations all 5 ≠ [] := List.ne_nil_of_mem htake
  have hrsne : rs ≠ [] := by
    intro hnil
    have := mapM_some_length _ _ _ hrs
    rw [hnil] at this
    exact hcne (List.eq_nil_of_length_eq_zero this.symm)
  obtain ⟨m, hmax, hmem, hall⟩ := maxHandRank_spec rs hrsne
  refine ⟨m, ?_, ?_, ?_⟩
  · simp only [find_best_hand, guard]
    rw [if_pos hg]
    simp only [Option.bind_eq_bind, Option.some_bind]
    rw [if_neg h5]
    rw [hrs]
    simp only [Option.some_bind]
    exact hmax
  · obtain ⟨c, hc, hfc⟩ := mapM_mem_exists _ _ _ hrs m hmem
    obtain ⟨hsl, hln⟩ := (mem_get_combinations all 5 c).mp hc
    exact ⟨c, hsl, hln, hfc⟩
  · intro c hsl hln rc hrc
    have hc : c ∈ get_combinations all 5 := (mem_get_combinations all 5 c).mpr ⟨hsl, hln⟩
    obtain ⟨b, hb, hfb⟩ := mapM_exists_mem _ _ _ hrs c hc
    rw [hrc] at hfb
    cases Option.some.inj hfb
    exact hall _ hb

/-- C2: for 6 or 7 distinct cards, find_best_hand returns the maximum under
the HandRank order of evaluate_5_card_hand over all 5-card subsets (with a
witnessing subset); evaluate_5_card_hand recognises the A-2-3-4-5 rank set
as a StraightFlush topped by Five when suited and a Straight topped by Five
otherwise, and classifies a suited A-K-Q-J-T hand as RoyalFlush. -/
theorem find_best_hand_correct :
    (∀ all : List Card, all.Nodup → (all.length = 6 ∨ all.length = 7) →
       ∃ r, find_best_hand all = some r ∧
         (∃ c, c.Sublist all ∧ c.length = 5 ∧ evaluate_5_card_hand c = some r) ∧
         (∀ c, c.Sublist all → c.length = 5 →
           ∀ rc, evaluate_5_card_hand c = some rc → rc.le r)) ∧
    (∀ hand : List Card, hand.length = 5 →
       (hand.map Card.rank).Perm wheelRanks →
       ((∀ a ∈ hand, ∀ b ∈ hand, a.suit = b.suit) →
          evaluate_5_card_hand hand = some (.StraightFlush .Five)) ∧
       ((¬ ∀ a ∈ hand, ∀ b ∈ hand, a.suit = b.suit) →
          evaluate_5_card_hand hand = some (.Straight .Five))) ∧
    (∀ hand : List Card, hand.length = 5 →
       (hand.map Card.rank).Perm [.Ace, .King, .Queen, .Jack, .Ten] →
       (∀ a ∈ hand, ∀ b ∈ hand, a.suit = b.suit) →
       evaluate_5_card_hand hand = some .RoyalFlush) :=
  ⟨fun all _ hl => find_best_hand_max all hl,
   fun hand hlen hperm => eval_wheel hand hlen hperm,
   fun hand hlen hperm hsuits => eval_royal hand hlen hperm hsuits⟩

/-- Witness for C2: the royal flush board with an off-suit deuce as the
6-card input, and concrete wheel / royal 5-card hands. -/
theorem find_best_hand_correct_witness :
    (∃ r, find_best_hand
        [⟨.Ace, .Spade⟩, ⟨.King, .Spade⟩, ⟨.Queen, .Spade⟩,
         ⟨.Jack, .Spade⟩, ⟨.Ten, .Spade⟩, ⟨.Two, .Heart⟩] = some r ∧
       (∃ c, c.Sublist
            [⟨.Ace, .Spade⟩, ⟨.King, .Spade⟩, ⟨.Queen, .Spade⟩,
             ⟨.Jack, .Spade⟩, ⟨.Ten, .Spade⟩, ⟨.Two, .Heart⟩] ∧
          c.length = 5 ∧ evaluate_5_card_hand c = some r) ∧
       (∀ c, c.Sublist
            [⟨.Ace, .Spade⟩, ⟨.King, .Spade⟩, ⟨.Queen, .Spade⟩,
             ⟨.Jack, .Spade⟩, ⟨.Ten, .Spade⟩, ⟨.Two, .Heart⟩] → c.length = 5 →
         ∀ rc, evaluate_5_card_hand c = some rc → rc.le r)) ∧
    evaluate_5_card_hand
      [⟨.Ace, .Heart⟩, ⟨.Two, .Heart⟩, ⟨.Three, .Heart⟩,
       ⟨.Four, .Heart⟩, ⟨.Five, .Heart⟩] = some (.StraightFlush .Five) ∧
    evaluate_5_card_hand
      [⟨.Ace, .Heart⟩, ⟨.Two, .Spade⟩, ⟨.Three, .Heart⟩,
       ⟨.Four, .Heart⟩, ⟨.Five, .Heart⟩] = some (.Straight .Five) ∧
    evaluate_5_card_hand
      [⟨.Ten, .Diamond⟩, ⟨.Jack, .Diamond⟩, ⟨.Queen, .Diamond⟩,
       ⟨.King, .Diamond⟩, ⟨.Ace, .Diamond⟩] = some .RoyalFlush :=
  ⟨find_best_hand_correct.1
     [⟨.Ace, .Spade⟩, ⟨.King, .Spade⟩, ⟨.Queen, .Spade⟩,
      ⟨.Jack, .Spade⟩, ⟨.Ten, .Spade⟩, ⟨.Two, .Heart⟩] (by decide) (Or.inl rfl),
   (find_best_hand_correct.2.1
     [⟨.Ace, .Heart⟩, ⟨.Two, .Heart⟩, ⟨.Three, .Heart⟩,
      ⟨.Four, .Heart⟩, ⟨.Five, .Heart⟩] rfl (by decide)).1 (by decide),
   (find_best_hand_correct.2.1
     [⟨.Ace, .Heart⟩, ⟨.Two, .Spade⟩, ⟨.Three, .Heart⟩,
      ⟨.Four, .Heart⟩, ⟨.Five, .Heart⟩] rfl (by decide)).2 (by decide),
   find_best_hand_correct.2.2
     [⟨.Ten, .Diamond⟩, ⟨.Jack, .Diamond⟩, ⟨.Queen, .Diamond⟩,
      ⟨.King, .Diamond⟩, ⟨.Ace, .Diamond⟩] rfl (by decide) (by decide)⟩


-- --- C1: level-by-level pot distribution ---

lemma lookup_updateP (ps : List (PlayerId × Player)) (k : PlayerId)
    (f : Player → Player) (pid : PlayerId) :
    List.lookup pid (updateP ps k f) =
      if pid = k then (List.lookup pid ps).map f else List.lookup pid ps := by
  induction ps with
  | nil => simp [updateP]
  | cons e rest ih =>
    obtain ⟨k0, v0⟩ := e
    simp only [updateP]
    by_cases hk : k0 = k
    · subst hk
      rw [if_pos rfl]
      by_cases hp : pid = k0
      · subst hp
        simp [List.lookup]
      · have hb : (pid == k0) = false := by simp [hp]
        simp [List.lookup, hb, hp]
    · rw [if_neg hk]
      by_cases hp : pid = k0
      · subst hp
        simp [List.lookup, hk]
      · have hb : (pid == k0) = false := by simp [hp]
        simp only [List.lookup, hb]
        exact ih

lemma pot_at_level_go (prev level : Nat) :
    ∀ (cs : List Contributor) (acc : Nat),
      cs.foldl
        (fun acc c =>
          if c.bet_amount > prev
          then acc + min (level - prev) (c.bet_amount - prev)
          else acc) acc =
      acc + specPotAtLevel cs prev level := by
  intro cs
  induction cs with
  | nil => intro acc; simp [specPotAtLevel]
  | cons c rest ih =>
    intro acc
    by_cases hc : c.bet_amount > prev
    · simp only [List.foldl, if_pos hc, ih, specPotAtLevel, List.map_cons, List.sum_cons]
      omega
    · have h0 : c.bet_amount - prev = 0 := by omega
      simp only [List.foldl, if_neg hc, ih, specPotAtLevel, List.map_cons, List.sum_cons, h0]
      simp

lemma pot_at_level_eq (cs : List Contributor) (prev level : Nat) :
    pot_at_level cs prev level = specPotAtLevel cs prev level := by
  unfold pot_at_level
  rw [pot_at_level_go prev level cs 0]
  simp

lemma HandRank.le_refl (x : HandRank) : x.le x :=
  (HandRank.le_iff_key x x).mpr Nat.le.refl

lemma HandRank.le_antisymm {x y : HandRank} (h1 : x.le y) (h2 : y.le x) : x = y :=
  key_inj x y (Nat.le_antisymm ((HandRank.le_iff_key x y).mp h1)
    ((HandRank.le_iff_key y x).mp h2))

lemma mapM_map_proj {α β γ : Type _} (f : α → Option β) (g : β → γ) (h2 : α → γ)
    (hf : ∀ a b, f a = some b → g b = h2 a) :
    ∀ (l : List α) (rs : List β), l.mapM f = some rs → rs.map g = l.map h2 := by
  intro l
  induction l with
  | nil =>
    intro rs h
    rw [List.mapM_nil] at h
    cases Option.some.inj h
    rfl
  | cons x xs ih =>
    intro rs h
    rw [List.mapM_cons] at h
    simp only [Option.bind_eq_bind, Option.bind_eq_some] at h
    obtain ⟨b, hb, rs', hrs', hpure⟩ := h
    cases Option.some.inj hpure
    simp only [List.map_cons, hf x b hb, ih rs' hrs']

lemma compute_contributors_ids (s : GameState) (rm : List (PlayerId × HandRank))
    (cs : List Contributor) (h : compute_contributors s rm = some cs) :
    cs.map Contributor.id = s.hand_player_order := by
  unfold compute_contributors at h
  have := mapM_map_proj _ Contributor.id (fun ip => ip.2) ?_ _ _ h
  · rw [this, List.enum_map_snd]
  · intro a b hab
    simp only [Option.bind_eq_bind, Option.bind_eq_some] at hab
    obtain ⟨bet, _, hpure⟩ := hab
    cases Option.some.inj hpure
    rfl

lemma specWinners_eq_filter_max (es : List Contributor) (M : HandRank)
    (hmem : some M ∈ es.map Contributor.rank)
    (hmax : ∀ c ∈ es, ∀ r, c.rank = some r → r.le M) :
    specWinners es = (es.filter (fun c => c.rank = some M)).map Contributor.id := by
  unfold specWinners
  congr 1
  apply List.filter_congr
  intro c hc
  cases hr : c.rank with
  | none => simp [hr]
  | some r =>
    simp only [hr]
    rw [Bool.eq_iff_iff]
    simp only [List.all_eq_true, decide_eq_true_eq, Option.some_inj]
    obtain ⟨c0, hc0, hc0r⟩ := List.mem_map.mp hmem
    constructor
    · intro hall
      have hMr : M.le r := by
        have h2 := hall c0 hc0
        rw [hc0r] at h2
        simpa using h2
      exact HandRank.le_antisymm (hmax c hc r hr) hMr
    · intro hreq
      subst hreq
      intro d hd
      cases hdr : d.rank with
      | none => simp [hdr]
      | some rd =>
        simp only [hdr, decide_eq_true_eq]
        exact hmax d hd rd hdr

lemma pick_winners_go :
    ∀ (es : List Contributor) (br : HandRank) (ws : List PlayerId),
      (∀ c ∈ es, c.rank.isSome) →
      ∃ M, es.foldlM pick_winners_step (some br, ws) = some (some M,
          if br = M then ws ++ (es.filter (fun c => c.rank = some M)).map Contributor.id
          else (es.filter (fun c => c.rank = some M)).map Contributor.id) ∧
        br.le M ∧ (br = M ∨ some M ∈ es.map Contributor.rank) ∧
        (∀ c ∈ es, ∀ r, c.rank = some r → r.le M) := by
  intro es
  induction es with
  | nil =>
    intro br ws _
    exact ⟨br, by simp, HandRank.le_refl br, Or.inl rfl, by simp⟩
  | cons c cs ih =>
    intro br ws hsome
    obtain ⟨rc, hrc⟩ := Option.isSome_iff_exists.mp (hsome c (List.mem_cons_self _ _))
    have hsome' : ∀ d ∈ cs, d.rank.isSome :=
      fun d hd => hsome d (List.mem_cons_of_mem _ hd)
    by_cases hgt : rc.cmp br = .gt
    · obtain ⟨M, hfold, hle, hatt, hbound⟩ := ih rc [c.id] hsome'
      have hlt : br.key < rc.key := (HandRank.cmp_gt_iff rc br).mp hgt
      have hrcM : rc.key ≤ M.key := (HandRank.le_iff_key rc M).mp hle
      have hbrM : ¬ br = M := by
        intro h
        rw [h] at hlt
        omega
      refine ⟨M, ?_, ?_, ?_, ?_⟩
      · rw [List.foldlM_cons]
        simp only [pick_winners_step, hrc, Option.bind_eq_bind, Option.pure_def,
          Option.some_bind, if_pos hgt]
        rw [hfold]
        by_cases hM : rc = M
        · rw [if_pos hM, if_neg hbrM]
          subst hM
          simp [List.filter_cons, hrc]
        · rw [if_neg hM, if_neg hbrM]
          have : ¬ c.rank = some M := by
            rw [hrc]
            exact fun h => hM (Option.some.inj h)
          simp [List.filter_cons, this]
      · exact (HandRank.le_iff_key br M).mpr (by omega)
      · rcases hatt with rfl | hmm
        · exact Or.inr (by simp [hrc])
        · exact Or.inr (List.mem_cons_of_mem _ hmm)
      · intro d hd r hdr
        rcases List.mem_cons.mp hd with rfl | hdd
        · rw [hrc] at hdr
          cases Option.some.inj hdr
          exact hle
        · exact hbound d hdd r hdr
    · by_cases heq : rc = br
      · obtain ⟨M, hfold, hle, hatt, hbound⟩ := ih br (ws ++ [c.id]) hsome'
        have hatt2 : br = M ∨ some M ∈ (c :: cs).map Contributor.rank := by
          rcases hatt with h | h
          · exact Or.inl h
          · exact Or.inr (List.mem_cons_of_mem _ h)
        refine ⟨M, ?_, hle, hatt2, ?_⟩
        · rw [List.foldlM_cons]
          simp only [pick_winners_step, hrc, Option.bind_eq_bind, Option.pure_def,
            Option.some_bind, if_neg hgt, if_pos heq]
          rw [hfold]
          by_cases hM : br = M
          · rw [if_pos hM, if_pos hM]
            have hcM : c.rank = some M := by rw [hrc, heq, hM]
            simp [List.filter_cons, hcM]
          · rw [if_neg hM, if_neg hM]
            have : ¬ c.rank = some M := by
              rw [hrc]
              intro h
              exact hM (heq ▸ Option.some.inj h)
            simp [List.filter_cons, this]
        · intro d hd r hdr
          rcases List.mem_cons.mp hd with rfl | hdd
          · rw [hrc] at hdr
            cases Option.some.inj hdr
            exact heq ▸ hle
          · exact hbound d hdd r hdr
      · obtain ⟨M, hfold, hle, hatt, hbound⟩ := ih br ws hsome'
        have hrckey : rc.key ≤ br.key := by
          by_contra hh
          exact hgt ((HandRank.cmp_gt_iff rc br).mpr (by omega))
        have hrclt : rc.key < br.key := by
          rcases Nat.lt_or_ge rc.key br.key with h | h
          · exact h
          · exact absurd (key_inj rc br (Nat.le_antisymm hrckey h)) heq
        have hbrM : br.key ≤ M.key := (HandRank.le_iff_key br M).mp hle
        have hrcM : ¬ rc = M := by
          intro h
          rw [h] at hrclt
          omega
        have hatt2 : br = M ∨ some M ∈ (c :: cs).map Contributor.rank := by
          rcases hatt with h | h
          · exact Or.inl h
          · exact Or.inr (List.mem_cons_of_mem _ h)
        refine ⟨M, ?_, hle, hatt2, ?_⟩
        · rw [List.foldlM_cons]
          simp only [pick_winners_step, hrc, Option.bind_eq_bind, Option.pure_def,
            Option.some_bind, if_neg hgt, if_neg heq]
          rw [hfold]
          have : ¬ c.rank = some M := by
            rw [hrc]
            exact fun h => hrcM (Option.some.inj h)
          by_cases hM : br = M
          · rw [if_pos hM, if_pos hM]
            simp [List.filter_cons, this]
          · rw [if_neg hM, if_neg hM]
            simp [List.filter_cons, this]
        · intro d hd r hdr
          rcases List.mem_cons.mp hd with rfl | hdd
          · rw [hrc] at hdr
            cases Option.some.inj hdr
            exact (HandRank.le_iff_key _ M).mpr (by omega)
          · exact hbound d hdd r hdr

lemma pick_winners_eq_spec (es : List Contributor)
    (h : ∀ c ∈ es, c.rank.isSome) :
    pick_winners es = some (specWinners es) := by
  cases es with
  | nil => rfl
  | cons c cs =>
    obtain ⟨rc, hrc⟩ := Option.isSome_iff_exists.mp (h c (List.mem_cons_self _ _))
    have hsome' : ∀ d ∈ cs, d.rank.isSome :=
      fun d hd => h d (List.mem_cons_of_mem _ hd)
    obtain ⟨M, hfold, hle, hatt, hbound⟩ := pick_winners_go cs rc [c.id] hsome'
    have hmem : some M ∈ (c :: cs).map Contributor.rank := by
      rcases hatt with rfl | hmm
      · simp [hrc]
      · exact List.mem_cons_of_mem _ hmm
    have hmax : ∀ d ∈ c :: cs, ∀ r, d.rank = some r → r.le M := by
      intro d hd r hdr
      rcases List.mem_cons.mp hd with rfl | hdd
      · rw [hrc] at hdr
        cases Option.some.inj hdr
        exact hle
      · exact hbound d hdd r hdr
    rw [specWinners_eq_filter_max (c :: cs) M hmem hmax]
    unfold pick_winners
    rw [List.foldlM_cons]
    simp only [pick_winners_step, hrc, Option.bind_eq_bind, Option.pure_def,
      Option.some_bind]
    rw [hfold]
    simp only [Option.some_bind]
    by_cases hM : rc = M
    · rw [if_pos hM]
      have hcM : c.rank = some M := by rw [hrc, hM]
      simp [List.filter_cons, hcM]
    · rw [if_neg hM]
      have : ¬ c.rank = some M := by
        rw [hrc]
        exact fun hh => hM (Option.some.inj hh)
      simp [List.filter_cons, this]

lemma award_go (win rem : Nat) :
    ∀ (l : List (Nat × PlayerId)) (ps : List (PlayerId × Player))
      (tw : List (PlayerId × Nat)) (pid : PlayerId) (p : Player),
      List.lookup pid ps = some p →
      ∃ p', List.lookup pid ((l.foldl (award_step win rem) (ps, tw)).1) = some p' ∧
        p'.stack = p.stack +
          ((l.filter (fun iw => iw.2 = pid)).map
            (fun iw => win + if iw.1 = 0 then rem else 0)).sum := by
  intro l
  induction l with
  | nil =>
    intro ps tw pid p hp
    exact ⟨p, hp, by simp⟩
  | cons iw rest ih =>
    intro ps tw pid p hp
    rw [List.foldl_cons]
    cases hlw : List.lookup iw.2 ps with
    | none =>
      have hne : ¬ iw.2 = pid := by
        intro h2
        rw [h2, hp] at hlw
        cases hlw
      have hfc : (iw :: rest).filter (fun iw => iw.2 = pid) =
          rest.filter (fun iw => iw.2 = pid) := by
        simp [List.filter_cons, hne]
      simp only [award_step, hlw]
      obtain ⟨p', h1, h2⟩ := ih ps tw pid p hp
      exact ⟨p', h1, by rw [h2, hfc]⟩
    | some q =>
      simp only [award_step, hlw]
      by_cases hpe : iw.2 = pid
      · have hp1 : List.lookup pid
            (updateP ps iw.2 (fun p => { p with stack :=
              p.stack + (win + if iw.1 = 0 then rem else 0) })) =
            some { p with stack := p.stack + (win + if iw.1 = 0 then rem else 0) } := by
          rw [lookup_updateP, if_pos hpe.symm, hp]
          rfl
        have hfc : (iw :: rest).filter (fun iw => iw.2 = pid) =
            iw :: rest.filter (fun iw => iw.2 = pid) := by
          simp [List.filter_cons, hpe]
        obtain ⟨p', h1, h2⟩ := ih _ _ pid _ hp1
        refine ⟨p', h1, ?_⟩
        have hs : ({ p with stack :=
            p.stack + (win + if iw.1 = 0 then rem else 0) } : Player).stack =
            p.stack + (win + if iw.1 = 0 then rem else 0) := rfl
        rw [hs] at h2
        rw [h2, hfc]
        simp only [List.map_cons, List.sum_cons]
        omega
      · have hp1 : List.lookup pid
            (updateP ps iw.2 (fun p => { p with stack :=
              p.stack + (win + if iw.1 = 0 then rem else 0) })) = some p := by
          rw [lookup_updateP, if_neg (fun h => hpe h.symm), hp]
        have hfc : (iw :: rest).filter (fun iw => iw.2 = pid) =
            rest.filter (fun iw => iw.2 = pid) := by
          simp [List.filter_cons, hpe]
        obtain ⟨p', h1, h2⟩ := ih _ _ pid _ hp1
        exact ⟨p', h1, by rw [h2, hfc]⟩

lemma enumFrom_filter_sum (win rem : Nat) (pid : PlayerId) :
    ∀ (l : List PlayerId) (k : Nat), 0 < k → l.Nodup →
      (((List.enumFrom k l).filter (fun iw => iw.2 = pid)).map
        (fun iw => win + if iw.1 = 0 then rem else 0)).sum =
      if pid ∈ l then win else 0 := by
  intro l
  induction l with
  | nil => intro k _ _; simp
  | cons a l' ih =>
    intro k hk hnd
    rw [List.enumFrom_cons]
    by_cases ha : a = pid
    · subst ha
      rw [List.filter_cons, if_pos (by simp)]
      simp only [List.map_cons, List.sum_cons]
      have hnotin : a ∉ l' := (List.nodup_cons.mp hnd).1
      rw [ih (k + 1) (by omega) (List.nodup_cons.mp hnd).2]
      rw [if_neg hnotin]
      have hk0 : ¬ k = 0 := by omega
      simp [hk0]
    · rw [List.filter_cons, if_neg (by simpa using ha)]
      rw [ih (k + 1) (by omega) (List.nodup_cons.mp hnd).2]
      have : (pid ∈ a :: l') ↔ pid ∈ l' := by
        constructor
        · intro h
          rcases List.mem_cons.mp h with rfl | h2
          · exact absurd rfl ha
          · exact h2
        · exact List.mem_cons_of_mem _
      rw [if_congr this rfl rfl]

lemma award_winners_stack (ps : List (PlayerId × Player)) (ws : List PlayerId)
    (pot : Nat) (tw : List (PlayerId × Nat)) (hnd : ws.Nodup)
    (pid : PlayerId) (p : Player) (hp : List.lookup pid ps = some p) :
    ∃ p', List.lookup pid (award_winners ps ws pot tw).1 = some p' ∧
      p'.stack = p.stack +
        (if pid ∈ ws then
          pot / ws.length + (if ws.head? = some pid then pot % ws.length else 0)
         else 0) := by
  cases ws with
  | nil =>
    refine ⟨p, ?_, by simp⟩
    simp [award_winners, hp]
  | cons w0 rest =>
    rw [award_winners, if_neg (by simp)]
    obtain ⟨p', h1, h2⟩ := award_go ((pot : Nat) / (w0 :: rest).length)
      (pot % (w0 :: rest).length) ((w0 :: rest).enum) ps tw pid p hp
    refine ⟨p', h1, ?_⟩
    rw [h2]
    congr 1
    have henum : (w0 :: rest).enum = (0, w0) :: List.enumFrom 1 rest := by
      simp [List.enum_cons, List.enumFrom_map_fst]
    rw [henum]
    by_cases hw : w0 = pid
    · subst hw
      rw [List.filter_cons, if_pos (by simp)]
      simp only [List.map_cons, List.sum_cons]
      have hnotin : w0 ∉ rest := (List.nodup_cons.mp hnd).1
      rw [enumFrom_filter_sum _ _ _ rest 1 (by omega) (List.nodup_cons.mp hnd).2]
      rw [if_neg hnotin]
      simp [List.head?]
    · rw [List.filter_cons, if_neg (by simpa using hw)]
      rw [enumFrom_filter_sum _ _ _ rest 1 (by omega) (List.nodup_cons.mp hnd).2]
      have hmem : (pid ∈ w0 :: rest) ↔ pid ∈ rest := by
        constructor
        · intro h
          rcases List.mem_cons.mp h with rfl | h2
          · exact absurd rfl hw
          · exact h2
        · exact List.mem_cons_of_mem _
      have hh : ¬ (w0 :: rest).head? = some pid := by
        simp [List.head?]
        exact hw
      by_cases hpr : pid ∈ rest
      · rw [if_pos hpr, if_pos (hmem.mpr hpr), if_neg hh]
        omega
      · rw [if_neg hpr, if_neg (fun h => hpr (hmem.mp h))]

lemma specContenders_eq (cs : List Contributor) (level : Nat) :
    specContenders cs level = eligible_at_level cs level := rfl

lemma eligible_all_isSome (cs : List Contributor) (level : Nat) :
    ∀ c ∈ eligible_at_level cs level, c.rank.isSome := by
  intro c hc
  have h2 := List.of_mem_filter hc
  exact (by simpa using h2 : _ ∧ c.rank.isSome = true).2

lemma specWinners_nodup (cs : List Contributor) (level : Nat)
    (hnd : (cs.map Contributor.id).Nodup) :
    (specWinners (eligible_at_level cs level)).Nodup := by
  have hsub : (specWinners (eligible_at_level cs level)).Sublist
      (cs.map Contributor.id) := by
    unfold specWinners eligible_at_level
    exact ((List.filter_sublist _).trans (List.filter_sublist _)).map Contributor.id
  exact hnd.sublist hsub

lemma specTierAward_zero (cs : List Contributor) (prev level : Nat)
    (pid : PlayerId) (hz : pot_at_level cs prev level = 0) :
    specTierAward cs prev level pid = 0 := by
  simp only [specTierAward]
  rw [← pot_at_level_eq, hz]
  simp

lemma level_loop_spec (cs : List Contributor)
    (hnd : (cs.map Contributor.id).Nodup) :
    ∀ (levels : List Nat) (prev : Nat) (ps : List (PlayerId × Player))
      (tw : List (PlayerId × Nat)),
      ∃ ps' tw', level_loop cs levels prev ps tw = some (ps', tw') ∧
        ∀ pid p, List.lookup pid ps = some p →
          ∃ p', List.lookup pid ps' = some p' ∧
            p'.stack = p.stack + specWinnings cs levels prev pid := by
  intro levels
  induction levels with
  | nil =>
    intro prev ps tw
    exact ⟨ps, tw, rfl, fun pid p hp => ⟨p, hp, by simp [specWinnings]⟩⟩
  | cons level rest ih =>
    intro prev ps tw
    by_cases hz : pot_at_level cs prev level = 0
    · obtain ⟨ps', tw', hl, hst⟩ := ih level ps tw
      refine ⟨ps', tw', ?_, ?_⟩
      · rw [level_loop, if_pos hz]
        exact hl
      · intro pid p hp
        obtain ⟨p', h1, h2⟩ := hst pid p hp
        refine ⟨p', h1, ?_⟩
        rw [h2, specWinnings, specTierAward_zero cs prev level pid hz]
        omega
    · have hpick : pick_winners (eligible_at_level cs level) =
          some (specWinners (eligible_at_level cs level)) :=
        pick_winners_eq_spec _ (eligible_all_isSome cs level)
      obtain ⟨ps', tw', hl, hst⟩ := ih level
        (award_winners ps (specWinners (eligible_at_level cs level))
          (pot_at_level cs prev level) tw).1
        (award_winners ps (specWinners (eligible_at_level cs level))
          (pot_at_level cs prev level) tw).2
      refine ⟨ps', tw', ?_, ?_⟩
      · rw [level_loop, if_neg hz]
        simp only [Option.bind_eq_bind, hpick, Option.some_bind]
        exact hl
      · intro pid p hp
        obtain ⟨p1, hp1, hs1⟩ := award_winners_stack ps
          (specWinners (eligible_at_level cs level))
          (pot_at_level cs prev level) tw
          (specWinners_nodup cs level hnd) pid p hp
        obtain ⟨p', h1, h2⟩ := hst pid p1 hp1
        refine ⟨p', h1, ?_⟩
        rw [h2, hs1, specWinnings]
        have htier : specTierAward cs prev level pid =
            (if pid ∈ specWinners (eligible_at_level cs level) then
              pot_at_level cs prev level /
                (specWinners (eligible_at_level cs level)).length +
              (if (specWinners (eligible_at_level cs level)).head? = some pid then
                pot_at_level cs prev level %
                  (specWinners (eligible_at_level cs level)).length
               else 0)
             else 0) := by
          simp only [specTierAward, specContenders_eq, pot_at_level_eq]
        rw [htier]
        omega

lemma lookup_foldl_updateP {β : Type _} (g : β → PlayerId) (f : β → Player → Player)
    (hf : ∀ b p, (f b p).stack = p.stack) :
    ∀ (l : List β) (ps : List (PlayerId × Player)) (pid : PlayerId) (p : Player),
      List.lookup pid ps = some p →
      ∃ p', List.lookup pid
          (l.foldl (fun ps b => updateP ps (g b) (f b)) ps) = some p' ∧
        p'.stack = p.stack := by
  intro l
  induction l with
  | nil =>
    intro ps pid p hp
    exact ⟨p, hp, rfl⟩
  | cons b rest ih =>
    intro ps pid p hp
    rw [List.foldl_cons]
    by_cases hpe : pid = g b
    · have hp1 : List.lookup pid (updateP ps (g b) (f b)) = some (f b p) := by
        rw [lookup_updateP, if_pos hpe, hp]
        rfl
      obtain ⟨p', h1, h2⟩ := ih _ pid _ hp1
      exact ⟨p', h1, by rw [h2, hf]⟩
    · have hp1 : List.lookup pid (updateP ps (g b) (f b)) = some p := by
        rw [lookup_updateP, if_neg hpe, hp]
      obtain ⟨p', h1, h2⟩ := ih _ pid _ hp1
      exact ⟨p', h1, h2⟩

/-- C1: at showdown, distribute_pots implements the spec's level-by-level
algorithm: with a nonzero pot and distinct hand players, the run zeroes
the pot and pays every player exactly specWinnings over the ascending
distinct positive bet levels - each tier pot is the sum over contributors
of min(slice, total_bet - prev_level), split evenly among the contenders
(total bet at least the level, hand rank present) tied at the maximum
hand rank, with the integer remainder going to the first such winner in
hand order. -/
theorem distribute_pots_by_levels (s s' : GameState) (msgs : List ServerMessage)
    (hpot : ¬ s.pot = 0)
    (hnod : s.hand_player_order.Nodup)
    (hrun : distribute_pots s = some (s', msgs)) :
    s'.pot = 0 ∧
    ∃ rm cs, compute_hand_ranks s = some rm ∧
      compute_contributors s rm = some cs ∧
      cs.map Contributor.id = s.hand_player_order ∧
      ∀ pid p, List.lookup pid s.players = some p →
        ∃ p', List.lookup pid s'.players = some p' ∧
          p'.stack = p.stack + specWinnings cs (bet_levels_of cs) 0 pid := by
  simp only [distribute_pots] at hrun
  rw [if_neg hpot] at hrun
  simp only [Option.bind_eq_bind, Option.bind_eq_some] at hrun
  obtain ⟨rm, hrm, cs, hcs, pr, hloop, hrest⟩ := hrun
  obtain ⟨players1, tw⟩ := pr
  simp only [Option.bind_eq_bind, Option.bind_eq_some] at hrest
  obtain ⟨results, hres, hpure⟩ := hrest
  have hpair := Option.some.inj hpure
  have hs' : s' = { s with
      players := s.hand_player_order.foldl
        (fun ps pid => updateP ps pid
          (fun p => if p.stack = 0
            then { p with losses := p.losses + 1, state := .Offline } else p))
        (tw.foldl
          (fun ps kv => updateP ps kv.1 (fun p => { p with wins := p.wins + 1 }))
          players1),
      pot := 0 } := by
    have := congrArg Prod.fst hpair
    simpa using this.symm
  have hids : cs.map Contributor.id = s.hand_player_order :=
    compute_contributors_ids s rm cs hcs
  have hndc : (cs.map Contributor.id).Nodup := by rw [hids]; exact hnod
  obtain ⟨ps1, tw1, hll, hstacks⟩ :=
    level_loop_spec cs hndc (bet_levels_of cs) 0 s.players []
  rw [hll] at hloop
  have hpr := Option.some.inj hloop
  have hps1 : ps1 = players1 := congrArg Prod.fst hpr
  subst hps1
  refine ⟨by rw [hs'], rm, cs, hrm, hcs, hids, ?_⟩
  intro pid p hp
  obtain ⟨p1, hp1, hst1⟩ := hstacks pid p hp
  obtain ⟨p2, hp2, hst2⟩ := lookup_foldl_updateP Prod.fst
    (fun _ p => { p with wins := p.wins + 1 }) (fun _ _ => rfl)
    tw _ pid p1 hp1
  obtain ⟨p3, hp3, hst3⟩ := lookup_foldl_updateP (fun x => x)
    (fun _ p => if p.stack = 0
      then { p with losses := p.losses + 1, state := .Offline } else p)
    (by
      intro b q
      by_cases hq : q.stack = 0
      · simp [hq]
      · simp [hq])
    s.hand_player_order _ pid p2 hp2
  refine ⟨p3, ?_, by rw [hst3, hst2, hst1]⟩
  rw [hs']
  exact hp3

/-- Witness for C1: a three-player showdown with bets 50/100/100 and pot
250; both tiers go to player 1's pair of aces. -/
theorem distribute_pots_by_levels_witness :
    ¬ tierPayState.pot = 0 ∧
    tierPayState.hand_player_order.Nodup ∧
    ((distribute_pots tierPayState).getD (tierPayState, [])).1.pot = 0 :=
  ⟨by decide, by decide,
   (distribute_pots_by_levels tierPayState
     ((distribute_pots tierPayState).getD (tierPayState, [])).1
     ((distribute_pots tierPayState).getD (tierPayState, [])).2
     (by decide) (by decide) (by rfl)).1⟩

end PokerEden
